import Mathlib

/-!
SEPTA dashboard: segment priority scoring.

A shallow embedding of the scoring utilities of `src/src/SeptaDashboard.jsx`:
the composite score `computeSegmentScore`, the ranking `scoredSegments` and the
colour mapping `getColorForScore`. The arithmetic of the source is read in two
ways: exactly, over the rationals (`ℚ`), which is the reading of every
definition that is not marked otherwise; and in IEEE 754 double precision, the
arithmetic the program runs, in the definitions whose names end in `Double`.
A property that is absent from an object (`undefined`) is modelled as `none`.
-/

namespace Septa

/-- One entry of `busSegments`: a directed portion of a bus route with its
operational measurements. The fields `from` and `to` of the source are spelled
`from_` and `to_` because both words are reserved. -/
structure Segment where
  id : String
  line : String
  direction : String
  from_ : String
  to_ : String
  freq_per_hr : ℚ
  avg_delay_min : ℚ
  load_factor : ℚ
  coords : List (ℚ × ℚ)
  deriving DecidableEq, Repr

/-- The `weights` argument of `computeSegmentScore` (the `priorityWeights`
state): each key may be present with a number or missing. -/
structure Weights where
  freq : Option ℚ
  delay : Option ℚ
  load : Option ℚ
  deriving DecidableEq, Repr

/-- The JavaScript expression `x || d` on a possibly missing number: `d` is
taken when `x` is `undefined` or `0` (the falsy values), `x` otherwise. -/
def orElse (x : Option ℚ) (d : ℚ) : ℚ :=
  match x with
  | none => d
  | some v => if v = 0 then d else v

/-- The constant `maxFreq` of `computeSegmentScore`. -/
def maxFreq : ℚ := 20

/-- The constant `maxDelay` of `computeSegmentScore`. -/
def maxDelay : ℚ := 10

/-- The constant `maxLoad` of `computeSegmentScore`. -/
def maxLoad : ℚ := 1

/-- `const freqScore = segment.freq_per_hr / maxFreq;` -/
def freqScore (segment : Segment) : ℚ :=
  segment.freq_per_hr / maxFreq

/-- `const delayScore = 1 - Math.min(segment.avg_delay_min / maxDelay, 1);` -/
def delayScore (segment : Segment) : ℚ :=
  1 - min (segment.avg_delay_min / maxDelay) 1

/-- `const loadScore = segment.load_factor / maxLoad;` -/
def loadScore (segment : Segment) : ℚ :=
  segment.load_factor / maxLoad

/-- `const totalWeight =
  (weights.freq || 0) + (weights.delay || 0) + (weights.load || 0) || 1;` -/
def totalWeight (weights : Weights) : ℚ :=
  orElse (some (orElse weights.freq 0 + orElse weights.delay 0 + orElse weights.load 0)) 1

/-- `const wFreq = (weights.freq || 0) / totalWeight;` -/
def wFreq (weights : Weights) : ℚ :=
  orElse weights.freq 0 / totalWeight weights

/-- `const wDelay = (weights.delay || 0) / totalWeight;` -/
def wDelay (weights : Weights) : ℚ :=
  orElse weights.delay 0 / totalWeight weights

/-- `const wLoad = (weights.load || 0) / totalWeight;` -/
def wLoad (weights : Weights) : ℚ :=
  orElse weights.load 0 / totalWeight weights

/-- The function `computeSegmentScore(segment, weights)`:
`return wFreq * freqScore + wDelay * delayScore + wLoad * loadScore;`
with the arithmetic read exactly, over the rationals. The value the program
returns in double arithmetic is `computeSegmentScoreDouble`. -/
def computeSegmentScore (segment : Segment) (weights : Weights) : ℚ :=
  wFreq weights * freqScore segment + wDelay weights * delayScore segment
    + wLoad weights * loadScore segment

/-- A weight set in which all three keys are present. -/
def weightsOf (f d l : ℚ) : Weights :=
  { freq := some f, delay := some d, load := some l }

/-- The entry `busSegments[0]`, id `23_north_1`. -/
def seg_23_north_1 : Segment :=
  { id := "23_north_1", line := "Route 23", direction := "Northbound",
    from_ := "South Philadelphia", to_ := "Center City",
    freq_per_hr := 18, avg_delay_min := 4, load_factor := 85 / 100,
    coords := [(3992 / 100, -7516 / 100), (3994 / 100, -7516 / 100),
      (3996 / 100, -7516 / 100)] }

/-- The initial value of the `priorityWeights` state:
`{ freq: 40, delay: 30, load: 30 }`. -/
def initialPriorityWeights : Weights := weightsOf 40 30 30

/-- A segment running 40 vehicles per hour, twice the `maxFreq` ceiling; the
other measurements are those of `23_north_1`. -/
def seg_freq_40 : Segment :=
  { seg_23_north_1 with id := "freq_40", freq_per_hr := 40 }

/-- A segment whose average delay, 12 minutes, is above the `maxDelay`
ceiling; the other measurements are those of `23_north_1`. -/
def seg_delay_12 : Segment :=
  { seg_23_north_1 with id := "delay_12", avg_delay_min := 12 }

/-- A segment whose recorded average delay is negative (ten minutes early);
the other measurements are those of `23_north_1`. -/
def seg_delay_neg_10 : Segment :=
  { seg_23_north_1 with id := "delay_neg_10", avg_delay_min := -10 }

/-- The entry `busSegments[1]`, id `23_south_1`. -/
def seg_23_south_1 : Segment :=
  { id := "23_south_1", line := "Route 23", direction := "Southbound",
    from_ := "Center City", to_ := "South Philadelphia",
    freq_per_hr := 18, avg_delay_min := 6, load_factor := 9 / 10,
    coords := [(3996 / 100, -75158 / 1000), (3994 / 100, -75158 / 1000),
      (3992 / 100, -75158 / 1000)] }

/-- The entry `busSegments[2]`, id `47_north_1`. -/
def seg_47_north_1 : Segment :=
  { id := "47_north_1", line := "Route 47", direction := "Northbound",
    from_ := "South Philadelphia", to_ := "North Philadelphia",
    freq_per_hr := 14, avg_delay_min := 5, load_factor := 8 / 10,
    coords := [(3992 / 100, -7515 / 100), (3995 / 100, -7515 / 100),
      (3998 / 100, -7515 / 100)] }

/-- The entry `busSegments[3]`, id `47_south_1`. -/
def seg_47_south_1 : Segment :=
  { id := "47_south_1", line := "Route 47", direction := "Southbound",
    from_ := "North Philadelphia", to_ := "South Philadelphia",
    freq_per_hr := 14, avg_delay_min := 3, load_factor := 7 / 10,
    coords := [(3998 / 100, -75148 / 1000), (3995 / 100, -75148 / 1000),
      (3992 / 100, -75148 / 1000)] }

/-- The entry `busSegments[4]`, id `52_east_1`. -/
def seg_52_east_1 : Segment :=
  { id := "52_east_1", line := "Route 52", direction := "Eastbound",
    from_ := "West Philadelphia", to_ := "Center City",
    freq_per_hr := 10, avg_delay_min := 7, load_factor := 92 / 100,
    coords := [(3996 / 100, -7523 / 100), (3996 / 100, -7521 / 100),
      (3996 / 100, -7519 / 100), (3996 / 100, -7517 / 100)] }

/-- The entry `busSegments[5]`, id `52_west_1`. -/
def seg_52_west_1 : Segment :=
  { id := "52_west_1", line := "Route 52", direction := "Westbound",
    from_ := "Center City", to_ := "West Philadelphia",
    freq_per_hr := 10, avg_delay_min := 5, load_factor := 75 / 100,
    coords := [(39958 / 1000, -7517 / 100), (39958 / 1000, -7519 / 100),
      (39958 / 1000, -7521 / 100), (39958 / 1000, -7523 / 100)] }

/-- The built-in catalog `busSegments`. -/
def busSegments : List Segment :=
  [seg_23_north_1, seg_23_south_1, seg_47_north_1, seg_47_south_1, seg_52_east_1,
    seg_52_west_1]

/-- An element of `scoredSegments`: the object `{ ...seg, score: ... }`, that is
every property of the segment together with a `score`. -/
structure ScoredSegment extends Segment where
  score : ℚ
  deriving DecidableEq, Repr

/-- One insertion step of `arraySort`: `x` stood before every element of the
list in the original array, so it stays in front of `y` unless the comparator
puts `y` strictly first (`compareFn x y > 0`). -/
def sortInsert {α : Type} (compareFn : α → α → ℚ) (x : α) : List α → List α
  | [] => [x]
  | y :: ys =>
    if compareFn x y ≤ 0 then x :: y :: ys else y :: sortInsert compareFn x ys

/-- The library method `Array.prototype.sort(compareFn)`, which the language
standard (ECMAScript 2019 and later) requires to be stable: `a` comes before `b`
when `compareFn(a, b) < 0`, after it when `compareFn(a, b) > 0`, and elements
that compare equal keep their original order. The standard leaves the algorithm
open; a stable insertion sort is used here. -/
def arraySort {α : Type} (compareFn : α → α → ℚ) : List α → List α
  | [] => []
  | x :: xs => sortInsert compareFn x (arraySort compareFn xs)

/-- The mapping callback `(seg) => ({ ...seg, score: computeSegmentScore(seg,
priorityWeights) })` of `scoredSegments`. -/
def withScore (weights : Weights) (seg : Segment) : ScoredSegment :=
  { seg with score := computeSegmentScore seg weights }

/-- The comparator `(a, b) => b.score - a.score` of `scoredSegments`. -/
def byScoreDesc (a b : ScoredSegment) : ℚ :=
  b.score - a.score

/-- The ranked sequence
`busSegments.map((seg) => ({ ...seg, score: ... })).sort((a, b) => b.score - a.score)`,
as a function of the catalog and of the `priorityWeights` state, with the
scores read exactly; `scoredSegmentsDouble` is the ranking of the scores the
program computes in double arithmetic. -/
def scoredSegments (catalog : List Segment) (weights : Weights) : List ScoredSegment :=
  arraySort byScoreDesc (catalog.map (withScore weights))

/-! ### Colour mapping -/

/-- The brand colour constant `SEPTA_BLUE`. -/
def SEPTA_BLUE : String := "#005DAA"

/-- The brand colour constant `SEPTA_RED`. -/
def SEPTA_RED : String := "#EF3E42"

/-- The library function `Math.round`: the nearest integer, a tie going to the
larger neighbour. -/
def mathRound (x : ℚ) : ℤ := ⌊x + 1 / 2⌋

/-- The constants `rStart`, `gStart`, `bStart` of `getColorForScore`. -/
def rStart : ℚ := 0
/-- See `rStart`. -/
def gStart : ℚ := 93
/-- See `rStart`. -/
def bStart : ℚ := 170

/-- The constants `rEnd`, `gEnd`, `bEnd` of `getColorForScore`. -/
def rEnd : ℚ := 239
/-- See `rEnd`. -/
def gEnd : ℚ := 62
/-- See `rEnd`. -/
def bEnd : ℚ := 66

/-- `const clamped = Math.max(0, Math.min(1, score || 0));` -/
def clamped (score : Option ℚ) : ℚ :=
  max 0 (min 1 (orElse score 0))

/-- `const r = Math.round(rStart + (rEnd - rStart) * clamped);` -/
def colorR (score : Option ℚ) : ℤ :=
  mathRound (rStart + (rEnd - rStart) * clamped score)

/-- `const g = Math.round(gStart + (gEnd - gStart) * clamped);` -/
def colorG (score : Option ℚ) : ℤ :=
  mathRound (gStart + (gEnd - gStart) * clamped score)

/-- `const b = Math.round(bStart + (bEnd - bStart) * clamped);` -/
def colorB (score : Option ℚ) : ℤ :=
  mathRound (bStart + (bEnd - bStart) * clamped score)

/-- The template literal of `getColorForScore` applied to three channel
values. -/
def rgbString (r g b : ℤ) : String :=
  "rgb(" ++ toString r ++ ", " ++ toString g ++ ", " ++ toString b ++ ")"

/-- The function `getColorForScore(score)`; a missing argument is `none`. -/
def getColorForScore (score : Option ℚ) : String :=
  rgbString (colorR score) (colorG score) (colorB score)

/-- The value of one hexadecimal digit. -/
def hexDigit (c : Char) : Option ℤ :=
  if '0' ≤ c ∧ c ≤ '9' then some (c.toNat - 48)
  else if 'A' ≤ c ∧ c ≤ 'F' then some (c.toNat - 55)
  else if 'a' ≤ c ∧ c ≤ 'f' then some (c.toNat - 87)
  else none

/-- The two-digit hexadecimal number written with the characters `hi`, `lo`. -/
def hexByte (hi lo : Char) : Option ℤ :=
  match hexDigit hi, hexDigit lo with
  | some h, some l => some (16 * h + l)
  | _, _ => none

/-- The red, green and blue channels denoted by a CSS colour `#RRGGBB`. -/
def hexChannels (color : String) : Option (ℤ × ℤ × ℤ) :=
  match color.toList with
  | ['#', r₁, r₂, g₁, g₂, b₁, b₂] =>
    match hexByte r₁ r₂, hexByte g₁ g₂, hexByte b₁ b₂ with
    | some r, some g, some b => some (r, g, b)
    | _, _, _ => none
  | _ => none

/-- The clamp of the specification, `clamp(x, lo, hi)`: `lo` below the range,
`hi` above it, `x` itself inside. -/
def specClamp (x lo hi : ℚ) : ℚ :=
  if x < lo then lo else if hi < x then hi else x

/-- Rounding half up, as the specification words it: the integer below when the
fractional part is less than one half, the integer above otherwise. -/
def specRoundHalfUp (x : ℚ) : ℤ :=
  if x - ⌊x⌋ < 1 / 2 then ⌊x⌋ else ⌊x⌋ + 1

/-- The channel formula of the specification:
`round(startChannel + (endChannel - startChannel) * clamp(score, 0, 1))`. -/
def specChannel (startChannel endChannel score : ℚ) : ℤ :=
  specRoundHalfUp (startChannel + (endChannel - startChannel) * specClamp score 0 1)

/-! ### Arrays and objects in the store

`Array.prototype.sort` sorts the array it is called on in place. To state what
the computation of `scoredSegments` does to the catalog, objects and arrays are
placed in a store and referred to by address. -/

/-- An object holding the properties of a segment and, when it has one, a
`score` property. -/
structure SegmentObject where
  props : Segment
  score : Option ℚ
  deriving DecidableEq, Repr

/-- The store: the object at address `i` is `objects[i]`, the array at address
`i` is `arrays[i]`, and an array holds the addresses of its elements. -/
structure Heap where
  objects : List SegmentObject
  arrays : List (List ℕ)
  deriving DecidableEq, Repr

/-- The callback `(seg) => ({ ...seg, score: computeSegmentScore(seg,
priorityWeights) })` on the store: the object literal allocates a new object
with the properties of `seg` and the `score` property; its address is
returned. -/
def scoreCallback (weights : Weights) (h : Heap) (seg : SegmentObject) : Heap × ℕ :=
  ({ h with objects := h.objects ++
      [{ props := seg.props, score := some (computeSegmentScore seg.props weights) }] },
    h.objects.length)

/-- The loop of `Array.prototype.map`: the callback is run on the elements in
index order and the addresses it returns are collected. -/
def mapElements (weights : Weights) : Heap → List ℕ → Option (Heap × List ℕ)
  | h, [] => some (h, [])
  | h, e :: es =>
    match h.objects[e]? with
    | none => none
    | some seg =>
      match mapElements weights (scoreCallback weights h seg).1 es with
      | none => none
      | some (h', rs) => some (h', (scoreCallback weights h seg).2 :: rs)

/-- The call `array.map(callback)` on the array at address `arr`: the results
go into a newly allocated array, whose address is returned. -/
def arrayMap (weights : Weights) (h : Heap) (arr : ℕ) : Option (Heap × ℕ) :=
  match h.arrays[arr]? with
  | none => none
  | some elems =>
    match mapElements weights h elems with
    | none => none
    | some (h', rs) => some ({ h' with arrays := h'.arrays ++ [rs] }, h'.arrays.length)

/-- The property read `a.score` of the comparator, on the object at address
`e`. The comparator only ever sees objects built by `scoreCallback`, which
have the property; the value 0 for the other cases is never used. -/
def scoreAt (h : Heap) (e : ℕ) : ℚ :=
  match h.objects[e]? with
  | some o => o.score.getD 0
  | none => 0

/-- The call `array.sort((a, b) => b.score - a.score)` on the array at address
`arr`: the array is reordered in place and its own address is returned. -/
def arraySortInPlace (h : Heap) (arr : ℕ) : Option (Heap × ℕ) :=
  match h.arrays[arr]? with
  | none => none
  | some elems =>
    some ({ h with arrays :=
        h.arrays.set arr (arraySort (fun a b => scoreAt h b - scoreAt h a) elems) }, arr)

/-- The expression `busSegments.map(...).sort(...)` that defines
`scoredSegments`, run on a store in which the catalog is the array at address
`catalogRef`; the address of the ranked array is returned. -/
def scoredSegmentsInStore (weights : Weights) (h : Heap) (catalogRef : ℕ) :
    Option (Heap × ℕ) :=
  match arrayMap weights h catalogRef with
  | none => none
  | some (h', mapped) => arraySortInPlace h' mapped

/-- A store holding exactly the catalog `busSegments`: its six objects, none
with a `score`, and the catalog array at address 0. -/
def catalogHeap : Heap :=
  { objects := busSegments.map (fun seg => { props := seg, score := none }),
    arrays := [[0, 1, 2, 3, 4, 5]] }

/-! ### Network view -/

/-- The `baseScore` computed inline by the network view for each segment,
depending on the `activeNetworkMetric` state:
`seg.freq_per_hr / 20` for `'freq'`, `1 - Math.min(seg.avg_delay_min / 10, 1)`
for `'delay'`, `seg.load_factor` otherwise. -/
def baseScore (activeNetworkMetric : String) (seg : Segment) : ℚ :=
  if activeNetworkMetric = "freq" then seg.freq_per_hr / 20
  else if activeNetworkMetric = "delay" then 1 - min (seg.avg_delay_min / 10) 1
  else seg.load_factor

/-- The line colour of the network view: `const color = getColorForScore(baseScore);` -/
def networkColor (activeNetworkMetric : String) (seg : Segment) : String :=
  getColorForScore (some (baseScore activeNetworkMetric seg))

/-! ### Animation frames -/

/-- A vehicle marker of an animation frame. -/
structure Vehicle where
  id : String
  label : String
  lat : ℚ
  lng : ℚ
  deriving DecidableEq, Repr

/-- An entry of `animatedTripFrames`. -/
structure TripFrame where
  time : String
  vehicles : List Vehicle
  deriving DecidableEq, Repr

/-- The constant `animatedTripFrames`. -/
def animatedTripFrames : List TripFrame :=
  [ { time := "06:00",
      vehicles := [
        { id := "23", label := "23", lat := 3993 / 100, lng := -7516 / 100 },
        { id := "47", label := "47", lat := 3993 / 100, lng := -7515 / 100 },
        { id := "52", label := "52", lat := 3996 / 100, lng := -7522 / 100 }] },
    { time := "08:00",
      vehicles := [
        { id := "23", label := "23", lat := 39955 / 1000, lng := -7516 / 100 },
        { id := "47", label := "47", lat := 39965 / 1000, lng := -7515 / 100 },
        { id := "52", label := "52", lat := 3996 / 100, lng := -752 / 10 }] },
    { time := "12:00",
      vehicles := [
        { id := "23", label := "23", lat := 3996 / 100, lng := -7516 / 100 },
        { id := "47", label := "47", lat := 3997 / 100, lng := -7515 / 100 },
        { id := "52", label := "52", lat := 3996 / 100, lng := -7518 / 100 }] },
    { time := "17:30",
      vehicles := [
        { id := "23", label := "23", lat := 3995 / 100, lng := -7516 / 100 },
        { id := "47", label := "47", lat := 3996 / 100, lng := -7515 / 100 },
        { id := "52", label := "52", lat := 3996 / 100, lng := -7519 / 100 }] },
    { time := "22:30",
      vehicles := [
        { id := "23", label := "23", lat := 39935 / 1000, lng := -7516 / 100 },
        { id := "47", label := "47", lat := 3994 / 100, lng := -7515 / 100 },
        { id := "52", label := "52", lat := 3996 / 100, lng := -75215 / 1000 }] } ]

/-- The initial value of the `animationFrameIndex` state, `useState(0)`. -/
def initialAnimationFrameIndex : ℕ := 0

/-- The state update run by the interval timer:
`(prev) => (prev + 1) % animatedTripFrames.length`. -/
def nextFrameIndex (prev : ℕ) : ℕ :=
  (prev + 1) % animatedTripFrames.length

/-- The value of `animationFrameIndex` after the timer has fired `ticks`
times; the timer update is the only place that sets this state. -/
def frameIndexAfter : ℕ → ℕ
  | 0 => initialAnimationFrameIndex
  | ticks + 1 => nextFrameIndex (frameIndexAfter ticks)

/-- `const currentFrame = animatedTripFrames[animationFrameIndex];`, with
`none` for an index outside the array (`undefined`). -/
def currentFrame (animationFrameIndex : ℕ) : Option TripFrame :=
  animatedTripFrames[animationFrameIndex]?

/-! ### Double-precision arithmetic

JavaScript numbers are IEEE 754 binary64 values. The definitions above read
the arithmetic of the source exactly; the definitions of this section redo
`computeSegmentScore` and `scoredSegments` with every operation rounded to the
nearest double, so that the two readings can be compared on concrete inputs. A
finite double is represented by its rational value; `none` stands for a result
outside the finite doubles (overflow). -/

/-- Search for the binade of a positive rational: `binadeSearch fuel q e`
halves or doubles `q` until it lies in `[1, 2)`, adjusting `e` so that
`q * 2 ^ e` stays the same; the answer is the final `e`. -/
def binadeSearch : ℕ → ℚ → ℤ → ℤ
  | 0, _, e => e
  | fuel + 1, q, e =>
    if 2 ≤ q then binadeSearch fuel (q / 2) (e + 1)
    else if q < 1 then binadeSearch fuel (q * 2) (e - 1)
    else e

/-- The binary exponent of a non-zero rational `x`: the integer `e` with
`2 ^ e ≤ |x| < 2 ^ (e + 1)` (for `|x|` between `2 ^ (-5000)` and `2 ^ 5000`,
far beyond the range of the doubles). -/
def binadeExponent (x : ℚ) : ℤ :=
  binadeSearch 5000 |x| 0

/-- The exponent of the unit in the last place at `x`: 52 binary places below
the leading bit for a normal double, and `-1074` in the subnormal range. -/
def ulpExponent (x : ℚ) : ℤ :=
  max (binadeExponent x - 52) (-1074)

/-- Rounding to the nearest integer, a tie going to the even neighbour. -/
def roundHalfEven (q : ℚ) : ℤ :=
  if q - ⌊q⌋ < 1 / 2 then ⌊q⌋
  else if 1 / 2 < q - ⌊q⌋ then ⌊q⌋ + 1
  else if ⌊q⌋ % 2 = 0 then ⌊q⌋
  else ⌊q⌋ + 1

/-- The double nearest to the real number `x` (IEEE 754 round to nearest, ties
to even), or `none` when the rounded value is beyond the largest finite
double. -/
@[noinline] def toDouble (x : ℚ) : Option ℚ :=
  if x = 0 then some 0
  else
    let y : ℚ := roundHalfEven (x / 2 ^ ulpExponent x) * 2 ^ ulpExponent x
    if |y| < 2 ^ (1024 : ℕ) then some y else none

/-- `const freqScore = segment.freq_per_hr / maxFreq;` in double arithmetic;
the measurement is the double denoted by its decimal value. -/
def freqScoreDouble (segment : Segment) : Option ℚ := do
  let freq_per_hr ← toDouble segment.freq_per_hr
  toDouble (freq_per_hr / maxFreq)

/-- `const delayScore = 1 - Math.min(segment.avg_delay_min / maxDelay, 1);` in
double arithmetic. -/
def delayScoreDouble (segment : Segment) : Option ℚ := do
  let avg_delay_min ← toDouble segment.avg_delay_min
  let ratio ← toDouble (avg_delay_min / maxDelay)
  toDouble (1 - min ratio 1)

/-- `const loadScore = segment.load_factor / maxLoad;` in double arithmetic. -/
def loadScoreDouble (segment : Segment) : Option ℚ := do
  let load_factor ← toDouble segment.load_factor
  toDouble (load_factor / maxLoad)

/-- The operand `(weights.x || 0)` as a double. -/
def weightDouble (x : Option ℚ) : Option ℚ := do
  let value ← toDouble (x.getD 0)
  pure (orElse (some value) 0)

/-- `const totalWeight = (weights.freq || 0) + (weights.delay || 0) +
(weights.load || 0) || 1;` in double arithmetic: the two additions are rounded
from left to right. -/
def totalWeightDouble (weights : Weights) : Option ℚ := do
  let freq ← weightDouble weights.freq
  let delay ← weightDouble weights.delay
  let load ← weightDouble weights.load
  let partialSum ← toDouble (freq + delay)
  let sum ← toDouble (partialSum + load)
  pure (orElse (some sum) 1)

/-- `const wFreq = (weights.freq || 0) / totalWeight;` in double arithmetic. -/
def wFreqDouble (weights : Weights) : Option ℚ := do
  let freq ← weightDouble weights.freq
  let total ← totalWeightDouble weights
  toDouble (freq / total)

/-- `const wDelay = (weights.delay || 0) / totalWeight;` in double arithmetic. -/
def wDelayDouble (weights : Weights) : Option ℚ := do
  let delay ← weightDouble weights.delay
  let total ← totalWeightDouble weights
  toDouble (delay / total)

/-- `const wLoad = (weights.load || 0) / totalWeight;` in double arithmetic. -/
def wLoadDouble (weights : Weights) : Option ℚ := do
  let load ← weightDouble weights.load
  let total ← totalWeightDouble weights
  toDouble (load / total)

/-- A rounded product `a * b` of two doubles. -/
def productDouble (a b : Option ℚ) : Option ℚ := do
  let x ← a
  let y ← b
  toDouble (x * y)

/-- The function `computeSegmentScore(segment, weights)` in double arithmetic:
`return wFreq * freqScore + wDelay * delayScore + wLoad * loadScore;`, the
three products rounded and then added from left to right, each sum rounded. -/
def computeSegmentScoreDouble (segment : Segment) (weights : Weights) : Option ℚ := do
  let freqTerm ← productDouble (wFreqDouble weights) (freqScoreDouble segment)
  let delayTerm ← productDouble (wDelayDouble weights) (delayScoreDouble segment)
  let loadTerm ← productDouble (wLoadDouble weights) (loadScoreDouble segment)
  let firstTwo ← toDouble (freqTerm + delayTerm)
  toDouble (firstTwo + loadTerm)

/-- The comparator `(a, b) => b.score - a.score` in double arithmetic. When the
difference overflows, the result is an infinity with the sign of the exact
difference, and only the sign matters to the sort. -/
def byScoreDescDouble (a b : ScoredSegment) : ℚ :=
  match toDouble (b.score - a.score) with
  | some v => v
  | none => b.score - a.score

/-- The loop of `busSegments.map(...)` in double arithmetic. -/
def mapWithScoreDouble (weights : Weights) : List Segment → Option (List ScoredSegment)
  | [] => some []
  | seg :: segs =>
    match computeSegmentScoreDouble seg weights, mapWithScoreDouble weights segs with
    | some score, some rest => some ({ seg with score := score } :: rest)
    | _, _ => none

/-- The ranked sequence `scoredSegments` in double arithmetic. -/
def scoredSegmentsDouble (catalog : List Segment) (weights : Weights) :
    Option (List ScoredSegment) :=
  (mapWithScoreDouble weights catalog).map (arraySort byScoreDescDouble)

/-- The identifiers of a ranked sequence, in order. -/
def rankedIds (ranking : Option (List ScoredSegment)) : Option (List String) :=
  ranking.map (fun entries => entries.map (fun entry => entry.id))

/-- A segment at the ceiling of every criterion: 20 vehicles per hour, no
delay, load factor 1. -/
def seg_all_max : Segment :=
  { id := "all_max", line := "Route 23", direction := "Northbound",
    from_ := "South Philadelphia", to_ := "Center City",
    freq_per_hr := 20, avg_delay_min := 0, load_factor := 1,
    coords := [] }

/-! ## Helper lemmas -/

@[simp] theorem orElse_some_zero (v : ℚ) : orElse (some v) 0 = v := by
  by_cases h : v = 0
  · simp [orElse, h]
  · simp [orElse, h]

theorem orElse_some_one_of_ne {v : ℚ} (h : v ≠ 0) : orElse (some v) 1 = v := by
  simp [orElse, h]

theorem orElse_some_one_zero : orElse (some 0) 1 = 1 := by
  simp [orElse]

theorem totalWeight_weightsOf_of_ne {f d l : ℚ} (h : f + d + l ≠ 0) :
    totalWeight (weightsOf f d l) = f + d + l := by
  simp [totalWeight, weightsOf, orElse_some_one_of_ne h]

theorem totalWeight_weightsOf_of_eq {f d l : ℚ} (h : f + d + l = 0) :
    totalWeight (weightsOf f d l) = 1 := by
  simp [totalWeight, weightsOf, h, orElse_some_one_zero]

theorem computeSegmentScore_of_ne (segment : Segment) {f d l : ℚ} (h : f + d + l ≠ 0) :
    computeSegmentScore segment (weightsOf f d l)
      = (f * (segment.freq_per_hr / 20)
          + d * (1 - min (segment.avg_delay_min / 10) 1)
          + l * segment.load_factor) / (f + d + l) := by
  unfold computeSegmentScore wFreq wDelay wLoad
  rw [totalWeight_weightsOf_of_ne h]
  simp only [weightsOf, orElse_some_zero, freqScore, delayScore, loadScore, maxFreq, maxDelay,
    maxLoad, div_one]
  ring

theorem delayScore_nonneg (segment : Segment) : 0 ≤ delayScore segment := by
  unfold delayScore
  have := min_le_right (segment.avg_delay_min / maxDelay) 1
  linarith

theorem delayScore_le_one {segment : Segment} (h : 0 ≤ segment.avg_delay_min) :
    delayScore segment ≤ 1 := by
  unfold delayScore maxDelay
  have : (0 : ℚ) ≤ min (segment.avg_delay_min / 10) 1 :=
    le_min (div_nonneg h (by norm_num)) (by norm_num)
  linarith

theorem loadScore_eq (segment : Segment) : loadScore segment = segment.load_factor := by
  simp [loadScore, maxLoad]

theorem computeSegmentScore_zero_weights (segment : Segment) :
    computeSegmentScore segment (weightsOf 0 0 0) = 0 := by
  simp [computeSegmentScore, wFreq, wDelay, wLoad, weightsOf]

theorem weights_eq_zero_of_sum {f d l : ℚ} (hf : 0 ≤ f) (hd : 0 ≤ d) (hl : 0 ≤ l)
    (h : f + d + l = 0) : f = 0 ∧ d = 0 ∧ l = 0 :=
  ⟨by linarith, by linarith, by linarith⟩

/-! ## The scoring function -/

/-- C1: for non-negative weights with a positive total, `computeSegmentScore`
is the weighted average
`(f*(freq_per_hr/20) + d*(1 - min(avg_delay_min/10, 1)) + l*load_factor) / (f + d + l)`;
the frequency term `freq_per_hr/20` carries no clamp. -/
theorem C1_computeSegmentScore_weighted_average (segment : Segment) (f d l : ℚ)
    (_hf : 0 ≤ f) (_hd : 0 ≤ d) (_hl : 0 ≤ l) (hpos : 0 < f + d + l) :
    computeSegmentScore segment (weightsOf f d l)
      = (f * (segment.freq_per_hr / 20)
          + d * (1 - min (segment.avg_delay_min / 10) 1)
          + l * segment.load_factor) / (f + d + l) :=
  computeSegmentScore_of_ne segment (ne_of_gt hpos)

theorem C1_witness :
    (0 : ℚ) ≤ 40 ∧ (0 : ℚ) ≤ 30 ∧ (0 : ℚ) < 40 + 30 + 30 ∧
    computeSegmentScore seg_23_north_1 (weightsOf 40 30 30)
      = (40 * (seg_23_north_1.freq_per_hr / 20)
          + 30 * (1 - min (seg_23_north_1.avg_delay_min / 10) 1)
          + 30 * seg_23_north_1.load_factor) / (40 + 30 + 30) :=
  ⟨by norm_num, by norm_num, by norm_num,
    C1_computeSegmentScore_weighted_average seg_23_north_1 40 30 30
      (by norm_num) (by norm_num) (by norm_num) (by norm_num)⟩

/-- C2: for a segment with `freq_per_hr = 18`, `avg_delay_min = 4`,
`load_factor = 0.85` and the weights `{freq: 40, delay: 30, load: 30}`, the
normalised weights are 0.4, 0.3, 0.3, the criterion scores are 0.9, 0.6, 0.85
and the composite score is 159/200 = 0.795. -/
theorem C2_reference_scenario (segment : Segment)
    (hfreq : segment.freq_per_hr = 18) (hdelay : segment.avg_delay_min = 4)
    (hload : segment.load_factor = 85 / 100) :
    wFreq (weightsOf 40 30 30) = 4 / 10 ∧ wDelay (weightsOf 40 30 30) = 3 / 10 ∧
    wLoad (weightsOf 40 30 30) = 3 / 10 ∧
    freqScore segment = 9 / 10 ∧ delayScore segment = 6 / 10 ∧
    loadScore segment = 85 / 100 ∧
    computeSegmentScore segment (weightsOf 40 30 30) = 159 / 200 := by
  have ht : totalWeight (weightsOf 40 30 30) = 100 := by
    rw [totalWeight_weightsOf_of_ne (by norm_num)]; norm_num
  have h1 : wFreq (weightsOf 40 30 30) = 4 / 10 := by
    rw [wFreq, ht]; simp [weightsOf]; norm_num
  have h2 : wDelay (weightsOf 40 30 30) = 3 / 10 := by
    rw [wDelay, ht]; simp [weightsOf]; norm_num
  have h3 : wLoad (weightsOf 40 30 30) = 3 / 10 := by
    rw [wLoad, ht]; simp [weightsOf]; norm_num
  have h4 : freqScore segment = 9 / 10 := by
    rw [freqScore, hfreq, maxFreq]; norm_num
  have h5 : delayScore segment = 6 / 10 := by
    rw [delayScore, hdelay, maxDelay, min_eq_left (by norm_num)]; norm_num
  have h6 : loadScore segment = 85 / 100 := by
    rw [loadScore_eq, hload]
  refine ⟨h1, h2, h3, h4, h5, h6, ?_⟩
  rw [computeSegmentScore, h1, h2, h3, h4, h5, h6]
  norm_num

theorem C2_witness :
    seg_23_north_1.freq_per_hr = 18 ∧ seg_23_north_1.avg_delay_min = 4 ∧
    seg_23_north_1.load_factor = 85 / 100 ∧
    computeSegmentScore seg_23_north_1 (weightsOf 40 30 30) = 159 / 200 :=
  ⟨rfl, rfl, rfl, (C2_reference_scenario seg_23_north_1 rfl rfl rfl).2.2.2.2.2.2⟩

/-- C3: with the all-zero weight set `{freq: 0, delay: 0, load: 0}` every
segment, whatever its measurements, scores 0. -/
theorem C3_zero_weights_score_zero (segment : Segment) :
    computeSegmentScore segment (weightsOf 0 0 0) = 0 :=
  computeSegmentScore_zero_weights segment

/-- C4: when the three weights sum to a value greater than 0, the fractional
contributions `wFreq`, `wDelay`, `wLoad` sum to exactly 1. -/
theorem C4_fractions_sum_to_one (f d l : ℚ) (hpos : 0 < f + d + l) :
    wFreq (weightsOf f d l) + wDelay (weightsOf f d l) + wLoad (weightsOf f d l) = 1 := by
  have hne : f + d + l ≠ 0 := ne_of_gt hpos
  unfold wFreq wDelay wLoad
  rw [totalWeight_weightsOf_of_ne hne]
  simp only [weightsOf, orElse_some_zero]
  rw [← add_div, ← add_div]
  exact div_self hne

theorem C4_witness :
    (0 : ℚ) < 40 + 30 + 30 ∧
    wFreq (weightsOf 40 30 30) + wDelay (weightsOf 40 30 30) + wLoad (weightsOf 40 30 30) = 1 :=
  ⟨by norm_num, C4_fractions_sum_to_one 40 30 30 (by norm_num)⟩

theorem computeSegmentScore_mem_unit (segment : Segment) (f d l : ℚ)
    (hfreq0 : 0 ≤ segment.freq_per_hr) (hfreq20 : segment.freq_per_hr ≤ 20)
    (hdelay : 0 ≤ segment.avg_delay_min)
    (hload0 : 0 ≤ segment.load_factor) (hload1 : segment.load_factor ≤ 1)
    (hf : 0 ≤ f) (hd : 0 ≤ d) (hl : 0 ≤ l) :
    0 ≤ computeSegmentScore segment (weightsOf f d l) ∧
      computeSegmentScore segment (weightsOf f d l) ≤ 1 := by
  by_cases hsum : f + d + l = 0
  · obtain ⟨rfl, rfl, rfl⟩ := weights_eq_zero_of_sum hf hd hl hsum
    rw [computeSegmentScore_zero_weights]
    exact ⟨le_refl 0, zero_le_one⟩
  · have hpos : 0 < f + d + l :=
      lt_of_le_of_ne (by positivity) (Ne.symm hsum)
    have hx0 : 0 ≤ segment.freq_per_hr / 20 := div_nonneg hfreq0 (by norm_num)
    have hx1 : segment.freq_per_hr / 20 ≤ 1 := by
      rw [div_le_one (by norm_num)]; exact hfreq20
    have hy0 : 0 ≤ 1 - min (segment.avg_delay_min / 10) 1 := by
      exact delayScore_nonneg segment
    have hy1 : 1 - min (segment.avg_delay_min / 10) 1 ≤ 1 := by
      exact delayScore_le_one hdelay
    rw [computeSegmentScore_of_ne segment hsum]
    constructor
    · apply div_nonneg _ hpos.le
      have := mul_nonneg hf hx0
      have := mul_nonneg hd hy0
      have := mul_nonneg hl hload0
      linarith
    · rw [div_le_one hpos]
      have := mul_le_mul_of_nonneg_left hx1 hf
      have := mul_le_mul_of_nonneg_left hy1 hd
      have := mul_le_mul_of_nonneg_left hload1 hl
      linarith

/-- C5, amended: computed in exact rational arithmetic, for a segment with
`0 ≤ freq_per_hr ≤ 20`, `avg_delay_min ≥ 0` and `0 ≤ load_factor ≤ 1`, and three
non-negative weights (all-zero included), `computeSegmentScore` lies in the
closed interval [0, 1]. -/
theorem C5_score_in_unit_interval (segment : Segment) (f d l : ℚ)
    (hfreq0 : 0 ≤ segment.freq_per_hr) (hfreq20 : segment.freq_per_hr ≤ 20)
    (hdelay : 0 ≤ segment.avg_delay_min)
    (hload0 : 0 ≤ segment.load_factor) (hload1 : segment.load_factor ≤ 1)
    (hf : 0 ≤ f) (hd : 0 ≤ d) (hl : 0 ≤ l) :
    0 ≤ computeSegmentScore segment (weightsOf f d l) ∧
      computeSegmentScore segment (weightsOf f d l) ≤ 1 :=
  computeSegmentScore_mem_unit segment f d l hfreq0 hfreq20 hdelay hload0 hload1 hf hd hl

theorem C5_witness :
    0 ≤ computeSegmentScore seg_23_north_1 (weightsOf 40 30 30) ∧
      computeSegmentScore seg_23_north_1 (weightsOf 40 30 30) ≤ 1 :=
  C5_score_in_unit_interval seg_23_north_1 40 30 30
    (by norm_num [seg_23_north_1]) (by norm_num [seg_23_north_1])
    (by norm_num [seg_23_north_1]) (by norm_num [seg_23_north_1])
    (by norm_num [seg_23_north_1]) (by norm_num) (by norm_num) (by norm_num)

/-- C6: the frequency score is not clamped, so the composite score can exceed
1: a segment with `freq_per_hr = 40` (valid delay and load) under the
non-negative weights `{freq: 1, delay: 0, load: 0}` scores 2. -/
theorem C6_score_can_exceed_one :
    ∃ (segment : Segment) (f d l : ℚ),
      20 < segment.freq_per_hr ∧ 0 ≤ segment.avg_delay_min ∧
      0 ≤ segment.load_factor ∧ segment.load_factor ≤ 1 ∧
      0 ≤ f ∧ 0 ≤ d ∧ 0 ≤ l ∧
      segment.freq_per_hr = 40 ∧ f = 1 ∧ d = 0 ∧ l = 0 ∧
      computeSegmentScore segment (weightsOf f d l) = 2 ∧
      1 < computeSegmentScore segment (weightsOf f d l) := by
  have hscore : computeSegmentScore seg_freq_40 (weightsOf 1 0 0) = 2 := by
    rw [computeSegmentScore_of_ne seg_freq_40 (by norm_num)]
    norm_num [seg_freq_40, seg_23_north_1]
  refine ⟨seg_freq_40, 1, 0, 0, ?_, ?_, ?_, ?_, ?_, ?_, ?_, ?_, rfl, rfl, rfl, hscore, ?_⟩
  all_goals first
    | (rw [hscore]; norm_num)
    | norm_num [seg_freq_40, seg_23_north_1]

/-- C7: the delay component is non-increasing in `avg_delay_min`, and it is
exactly 0 once `avg_delay_min ≥ 10`. -/
theorem C7_delayScore_antitone_and_zero (s₁ s₂ : Segment) :
    (s₁.avg_delay_min ≤ s₂.avg_delay_min → delayScore s₂ ≤ delayScore s₁) ∧
    (10 ≤ s₁.avg_delay_min → delayScore s₁ = 0) := by
  constructor
  · intro h
    unfold delayScore maxDelay
    have : min (s₁.avg_delay_min / 10) 1 ≤ min (s₂.avg_delay_min / 10) 1 :=
      min_le_min (div_le_div_of_nonneg_right h (by norm_num)) (le_refl 1)
    linarith
  · intro h
    unfold delayScore maxDelay
    have : (1 : ℚ) ≤ s₁.avg_delay_min / 10 := by
      rw [le_div_iff₀ (by norm_num)]; linarith
    rw [min_eq_right this, sub_self]

theorem C7_witness :
    seg_23_north_1.avg_delay_min ≤ seg_delay_12.avg_delay_min ∧
    delayScore seg_delay_12 ≤ delayScore seg_23_north_1 ∧
    10 ≤ seg_delay_12.avg_delay_min ∧ delayScore seg_delay_12 = 0 :=
  ⟨by norm_num [seg_delay_12, seg_23_north_1],
    (C7_delayScore_antitone_and_zero seg_23_north_1 seg_delay_12).1
      (by norm_num [seg_delay_12, seg_23_north_1]),
    by norm_num [seg_delay_12, seg_23_north_1],
    (C7_delayScore_antitone_and_zero seg_delay_12 seg_delay_12).2
      (by norm_num [seg_delay_12, seg_23_north_1])⟩

/-- C8, counterexample: a negative `avg_delay_min` of -10 gives the delay
component `1 - min(-10/10, 1) = 2`, which is outside [0, 1]; `Math.min` caps
the ratio at 1 only, so the component has no upper clamp. -/
theorem C8_counterexample_negative_delay :
    delayScore seg_delay_neg_10 = 2 ∧
    ¬ (0 ≤ delayScore seg_delay_neg_10 ∧ delayScore seg_delay_neg_10 ≤ 1) := by
  have h : delayScore seg_delay_neg_10 = 2 := by
    norm_num [delayScore, maxDelay, seg_delay_neg_10, seg_23_north_1]
  rw [h]
  norm_num

/-- C8, amended: for every `avg_delay_min`, of either sign, the delay component
`1 - min(avg_delay_min/10, 1)` is at least 0, and it is at most 1 exactly when
`avg_delay_min ≥ 0`; so it lies in [0, 1] for every non-negative delay. -/
theorem C8_delayScore_bounds (segment : Segment) :
    0 ≤ delayScore segment ∧ (delayScore segment ≤ 1 ↔ 0 ≤ segment.avg_delay_min) := by
  refine ⟨delayScore_nonneg segment, ⟨fun h => ?_, fun h => delayScore_le_one h⟩⟩
  unfold delayScore maxDelay at h
  have hmin : 0 ≤ min (segment.avg_delay_min / 10) 1 := by linarith
  have hdiv : 0 ≤ segment.avg_delay_min / 10 := le_trans hmin (min_le_left _ _)
  have := mul_nonneg hdiv (show (0 : ℚ) ≤ 10 by norm_num)
  rwa [div_mul_cancel₀ _ (show (10 : ℚ) ≠ 0 by norm_num)] at this

/-- C9: for every `load_factor` in [0, 1] the load component
`load_factor / maxLoad`, with `maxLoad = 1`, equals `load_factor`. -/
theorem C9_loadScore_eq_load_factor (segment : Segment)
    (_h0 : 0 ≤ segment.load_factor) (_h1 : segment.load_factor ≤ 1) :
    maxLoad = 1 ∧ loadScore segment = segment.load_factor :=
  ⟨rfl, loadScore_eq segment⟩

theorem C9_witness :
    0 ≤ seg_23_north_1.load_factor ∧ seg_23_north_1.load_factor ≤ 1 ∧
    loadScore seg_23_north_1 = seg_23_north_1.load_factor :=
  ⟨by norm_num [seg_23_north_1], by norm_num [seg_23_north_1],
    (C9_loadScore_eq_load_factor seg_23_north_1
      (by norm_num [seg_23_north_1]) (by norm_num [seg_23_north_1])).2⟩

theorem computeSegmentScore_scale (segment : Segment) (f d l k : ℚ)
    (hf : 0 ≤ f) (hd : 0 ≤ d) (hl : 0 ≤ l) (hk : 0 < k) :
    computeSegmentScore segment (weightsOf (k * f) (k * d) (k * l))
      = computeSegmentScore segment (weightsOf f d l) := by
  by_cases hsum : f + d + l = 0
  · obtain ⟨rfl, rfl, rfl⟩ := weights_eq_zero_of_sum hf hd hl hsum
    simp only [mul_zero]
  · have hk0 : k ≠ 0 := ne_of_gt hk
    have hksum : k * f + k * d + k * l ≠ 0 := by
      have : k * f + k * d + k * l = k * (f + d + l) := by ring
      rw [this]
      exact mul_ne_zero hk0 hsum
    rw [computeSegmentScore_of_ne segment hksum, computeSegmentScore_of_ne segment hsum]
    generalize segment.freq_per_hr / 20 = x
    generalize 1 - min (segment.avg_delay_min / 10) 1 = y
    generalize segment.load_factor = z
    field_simp
    ring

/-- C10, amended: computed in exact rational arithmetic, for three non-negative
weights and a scalar `k > 0`, scaling every weight by `k` leaves
`computeSegmentScore` unchanged. -/
theorem C10_score_scale_invariant (segment : Segment) (f d l k : ℚ)
    (hf : 0 ≤ f) (hd : 0 ≤ d) (hl : 0 ≤ l) (hk : 0 < k) :
    computeSegmentScore segment (weightsOf (k * f) (k * d) (k * l))
      = computeSegmentScore segment (weightsOf f d l) :=
  computeSegmentScore_scale segment f d l k hf hd hl hk

theorem C10_witness :
    (0 : ℚ) ≤ 40 ∧ (0 : ℚ) ≤ 30 ∧ (0 : ℚ) < 1 / 100 ∧
    computeSegmentScore seg_23_north_1 (weightsOf (1 / 100 * 40) (1 / 100 * 30) (1 / 100 * 30))
      = computeSegmentScore seg_23_north_1 (weightsOf 40 30 30) :=
  ⟨by norm_num, by norm_num, by norm_num,
    C10_score_scale_invariant seg_23_north_1 40 30 30 (1 / 100)
      (by norm_num) (by norm_num) (by norm_num) (by norm_num)⟩

/-! ## Ranking: `scoredSegments` -/

theorem sortInsert_perm {α : Type} (compareFn : α → α → ℚ) (x : α) (l : List α) :
    (sortInsert compareFn x l).Perm (x :: l) := by
  induction l with
  | nil => exact List.Perm.refl _
  | cons y ys ih =>
    unfold sortInsert
    split_ifs with h
    · exact List.Perm.refl _
    · exact (List.Perm.cons y ih).trans (List.Perm.swap x y ys)

theorem arraySort_perm {α : Type} (compareFn : α → α → ℚ) (l : List α) :
    (arraySort compareFn l).Perm l := by
  induction l with
  | nil => exact List.Perm.refl _
  | cons x xs ih =>
    unfold arraySort
    exact (sortInsert_perm compareFn x _).trans (List.Perm.cons x ih)

theorem sortInsert_byScoreDesc_pairwise (x : ScoredSegment) (l : List ScoredSegment)
    (hl : l.Pairwise (fun a b => b.score ≤ a.score)) :
    (sortInsert byScoreDesc x l).Pairwise (fun a b => b.score ≤ a.score) := by
  induction l with
  | nil => simp [sortInsert]
  | cons y ys ih =>
    obtain ⟨hy, hys⟩ := List.pairwise_cons.1 hl
    unfold sortInsert
    split_ifs with h
    · have hyx : y.score ≤ x.score := by
        unfold byScoreDesc at h
        linarith
      refine List.pairwise_cons.2 ⟨fun z hz => ?_, hl⟩
      rcases List.mem_cons.1 hz with rfl | hz
      · exact hyx
      · exact le_trans (hy z hz) hyx
    · have hxy : x.score ≤ y.score := by
        unfold byScoreDesc at h
        linarith
      refine List.pairwise_cons.2 ⟨fun z hz => ?_, ih hys⟩
      rcases List.mem_cons.1 ((sortInsert_perm byScoreDesc x ys).mem_iff.1 hz) with rfl | hz
      · exact hxy
      · exact hy z hz

theorem arraySort_byScoreDesc_pairwise (l : List ScoredSegment) :
    (arraySort byScoreDesc l).Pairwise (fun a b => b.score ≤ a.score) := by
  induction l with
  | nil => simp [arraySort]
  | cons x xs ih =>
    unfold arraySort
    exact sortInsert_byScoreDesc_pairwise x _ ih

theorem sortInsert_byScoreDesc_filter (v : ℚ) (x : ScoredSegment) (l : List ScoredSegment) :
    (sortInsert byScoreDesc x l).filter (fun s => decide (s.score = v))
      = (x :: l).filter (fun s => decide (s.score = v)) := by
  induction l with
  | nil => simp [sortInsert]
  | cons y ys ih =>
    unfold sortInsert
    split_ifs with h
    · rfl
    · have hne : x.score ≠ y.score := by
        intro heq
        apply h
        unfold byScoreDesc
        rw [heq, sub_self]
      rw [List.filter_cons, ih]
      by_cases hx : x.score = v
      · have hy : ¬ y.score = v := fun hy => hne (hx.trans hy.symm)
        simp [List.filter_cons, hx, hy]
      · simp [List.filter_cons, hx]

theorem arraySort_byScoreDesc_filter (v : ℚ) (l : List ScoredSegment) :
    (arraySort byScoreDesc l).filter (fun s => decide (s.score = v))
      = l.filter (fun s => decide (s.score = v)) := by
  induction l with
  | nil => simp [arraySort]
  | cons x xs ih =>
    unfold arraySort
    rw [sortInsert_byScoreDesc_filter, List.filter_cons, List.filter_cons, ih]

theorem scoredSegments_perm (catalog : List Segment) (weights : Weights) :
    (scoredSegments catalog weights).Perm (catalog.map (withScore weights)) :=
  arraySort_perm byScoreDesc _

theorem scoredSegments_length (catalog : List Segment) (weights : Weights) :
    (scoredSegments catalog weights).length = catalog.length := by
  rw [(scoredSegments_perm catalog weights).length_eq, List.length_map]

theorem toSegment_withScore (weights : Weights) (seg : Segment) :
    (withScore weights seg).toSegment = seg := rfl

theorem score_withScore (weights : Weights) (seg : Segment) :
    (withScore weights seg).score = computeSegmentScore seg weights := rfl

theorem score_initial_23_north_1 :
    computeSegmentScore seg_23_north_1 initialPriorityWeights = 159 / 200 := by
  rw [initialPriorityWeights, computeSegmentScore_of_ne _ (by norm_num)]
  norm_num [seg_23_north_1, min_def]

theorem score_initial_23_south_1 :
    computeSegmentScore seg_23_south_1 initialPriorityWeights = 3 / 4 := by
  rw [initialPriorityWeights, computeSegmentScore_of_ne _ (by norm_num)]
  norm_num [seg_23_south_1, min_def]

theorem score_initial_47_north_1 :
    computeSegmentScore seg_47_north_1 initialPriorityWeights = 67 / 100 := by
  rw [initialPriorityWeights, computeSegmentScore_of_ne _ (by norm_num)]
  norm_num [seg_47_north_1, min_def]

theorem score_initial_47_south_1 :
    computeSegmentScore seg_47_south_1 initialPriorityWeights = 7 / 10 := by
  rw [initialPriorityWeights, computeSegmentScore_of_ne _ (by norm_num)]
  norm_num [seg_47_south_1, min_def]

theorem score_initial_52_east_1 :
    computeSegmentScore seg_52_east_1 initialPriorityWeights = 283 / 500 := by
  rw [initialPriorityWeights, computeSegmentScore_of_ne _ (by norm_num)]
  norm_num [seg_52_east_1, min_def]

theorem score_initial_52_west_1 :
    computeSegmentScore seg_52_west_1 initialPriorityWeights = 23 / 40 := by
  rw [initialPriorityWeights, computeSegmentScore_of_ne _ (by norm_num)]
  norm_num [seg_52_west_1, min_def]

theorem scoredSegments_busSegments_initial :
    scoredSegments busSegments initialPriorityWeights
      = [withScore initialPriorityWeights seg_23_north_1,
          withScore initialPriorityWeights seg_23_south_1,
          withScore initialPriorityWeights seg_47_south_1,
          withScore initialPriorityWeights seg_47_north_1,
          withScore initialPriorityWeights seg_52_west_1,
          withScore initialPriorityWeights seg_52_east_1] := by
  norm_num [scoredSegments, busSegments, arraySort, sortInsert, byScoreDesc,
    score_withScore, score_initial_23_north_1, score_initial_23_south_1,
    score_initial_47_north_1, score_initial_47_south_1, score_initial_52_east_1,
    score_initial_52_west_1]

theorem score_freq_only (segment : Segment) :
    computeSegmentScore segment (weightsOf 1 0 0) = segment.freq_per_hr / 20 := by
  rw [computeSegmentScore_of_ne _ (by norm_num)]
  ring

/-- C11: the ranked sequence `scoredSegments` is in descending score order: at
adjacent positions `i`, `i + 1` the score at `i` is at least the score at
`i + 1`. -/
theorem C11_scoredSegments_descending (catalog : List Segment) (weights : Weights)
    (i : ℕ) (a b : ScoredSegment)
    (ha : (scoredSegments catalog weights)[i]? = some a)
    (hb : (scoredSegments catalog weights)[i + 1]? = some b) :
    b.score ≤ a.score := by
  obtain ⟨hi, rfl⟩ := List.getElem?_eq_some_iff.1 ha
  obtain ⟨hj, rfl⟩ := List.getElem?_eq_some_iff.1 hb
  have hp : (scoredSegments catalog weights).Pairwise (fun a b => b.score ≤ a.score) :=
    arraySort_byScoreDesc_pairwise _
  exact List.pairwise_iff_getElem.1 hp i (i + 1) hi hj (Nat.lt_succ_self i)

theorem C11_witness :
    (scoredSegments busSegments initialPriorityWeights)[2]?
      = some (withScore initialPriorityWeights seg_47_south_1) ∧
    (scoredSegments busSegments initialPriorityWeights)[2 + 1]?
      = some (withScore initialPriorityWeights seg_47_north_1) ∧
    (withScore initialPriorityWeights seg_47_north_1).score
      ≤ (withScore initialPriorityWeights seg_47_south_1).score :=
  ⟨by rw [scoredSegments_busSegments_initial]; rfl,
    by rw [scoredSegments_busSegments_initial]; rfl,
    C11_scoredSegments_descending busSegments initialPriorityWeights 2 _ _
      (by rw [scoredSegments_busSegments_initial]; rfl)
      (by rw [scoredSegments_busSegments_initial]; rfl)⟩

/-- C12: the ranked sequence is a permutation of the catalog: it has the same
length, its entries without their score are the catalog segments, each exactly
as often as in the catalog and with every field unchanged, and the score of
each entry is `computeSegmentScore` of that segment under the given weights. -/
theorem C12_scoredSegments_permutation (catalog : List Segment) (weights : Weights) :
    (scoredSegments catalog weights).length = catalog.length ∧
    ((scoredSegments catalog weights).map ScoredSegment.toSegment).Perm catalog ∧
    (scoredSegments catalog weights).Perm
      (catalog.map (fun seg => { toSegment := seg, score := computeSegmentScore seg weights })) ∧
    ∀ s ∈ scoredSegments catalog weights, s.score = computeSegmentScore s.toSegment weights := by
  refine ⟨scoredSegments_length catalog weights, ?_, scoredSegments_perm catalog weights, ?_⟩
  · have h := (scoredSegments_perm catalog weights).map ScoredSegment.toSegment
    rw [List.map_map] at h
    have hid : (ScoredSegment.toSegment ∘ withScore weights) = id := by
      funext seg
      rfl
    rwa [hid, List.map_id] at h
  · intro s hs
    obtain ⟨seg, _, rfl⟩ := List.mem_map.1 ((scoredSegments_perm catalog weights).mem_iff.1 hs)
    rfl

theorem C12_witness :
    withScore initialPriorityWeights seg_52_east_1
      ∈ scoredSegments busSegments initialPriorityWeights ∧
    (withScore initialPriorityWeights seg_52_east_1).score
      = computeSegmentScore seg_52_east_1 initialPriorityWeights :=
  ⟨by rw [scoredSegments_busSegments_initial]; simp,
    (C12_scoredSegments_permutation busSegments initialPriorityWeights).2.2.2 _
      (by rw [scoredSegments_busSegments_initial]; simp)⟩

/-- C13: the ranking is stable: two catalog segments with equal scores, the
first standing before the second in the catalog, stand in the same order in
the ranked sequence. -/
theorem C13_scoredSegments_stable (catalog : List Segment) (weights : Weights)
    (s t : Segment) (hst : List.Sublist [s, t] catalog)
    (heq : computeSegmentScore s weights = computeSegmentScore t weights) :
    List.Sublist [withScore weights s, withScore weights t]
      (scoredSegments catalog weights) := by
  have hmap : List.Sublist [withScore weights s, withScore weights t]
      (catalog.map (withScore weights)) :=
    hst.map (withScore weights)
  have hfil := hmap.filter (fun x => decide (x.score = computeSegmentScore s weights))
  have hpair : [withScore weights s, withScore weights t].filter
      (fun x => decide (x.score = computeSegmentScore s weights))
      = [withScore weights s, withScore weights t] := by
    simp [List.filter_cons, score_withScore, heq]
  rw [hpair, ← arraySort_byScoreDesc_filter] at hfil
  exact hfil.trans (List.filter_sublist _)

theorem C13_witness :
    List.Sublist [seg_47_north_1, seg_47_south_1] busSegments ∧
    computeSegmentScore seg_47_north_1 (weightsOf 1 0 0)
      = computeSegmentScore seg_47_south_1 (weightsOf 1 0 0) ∧
    List.Sublist
      [withScore (weightsOf 1 0 0) seg_47_north_1, withScore (weightsOf 1 0 0) seg_47_south_1]
      (scoredSegments busSegments (weightsOf 1 0 0)) :=
  ⟨by simp [busSegments],
    by rw [score_freq_only, score_freq_only]; rfl,
    C13_scoredSegments_stable busSegments (weightsOf 1 0 0) seg_47_north_1 seg_47_south_1
      (by simp [busSegments]) (by rw [score_freq_only, score_freq_only]; rfl)⟩

theorem withScore_scale (f d l k : ℚ) (hf : 0 ≤ f) (hd : 0 ≤ d) (hl : 0 ≤ l) (hk : 0 < k) :
    withScore (weightsOf (k * f) (k * d) (k * l)) = withScore (weightsOf f d l) := by
  funext seg
  unfold withScore
  rw [computeSegmentScore_scale seg f d l k hf hd hl hk]

theorem arraySort_byScoreDesc_of_const (v : ℚ) (l : List ScoredSegment)
    (hl : ∀ s ∈ l, s.score = v) : arraySort byScoreDesc l = l := by
  have hsorted : (arraySort byScoreDesc l).filter (fun s => decide (s.score = v))
      = arraySort byScoreDesc l :=
    List.filter_eq_self.2 fun s hs => by
      simpa using hl s ((arraySort_perm byScoreDesc l).mem_iff.1 hs)
  have hinput : l.filter (fun s => decide (s.score = v)) = l :=
    List.filter_eq_self.2 fun s hs => by simpa using hl s hs
  rw [← hsorted, arraySort_byScoreDesc_filter, hinput]

/-- C14, amended: with the scores computed in exact rational arithmetic, for
three non-negative weights and a scalar `k > 0`, ranking under the weights
scaled by `k` gives the same segments in the same order (and with the same
scores) as ranking under the weights themselves. -/
theorem C14_ranking_scale_invariant (catalog : List Segment) (f d l k : ℚ)
    (hf : 0 ≤ f) (hd : 0 ≤ d) (hl : 0 ≤ l) (hk : 0 < k) :
    (scoredSegments catalog (weightsOf (k * f) (k * d) (k * l))).map ScoredSegment.toSegment
      = (scoredSegments catalog (weightsOf f d l)).map ScoredSegment.toSegment ∧
    scoredSegments catalog (weightsOf (k * f) (k * d) (k * l))
      = scoredSegments catalog (weightsOf f d l) := by
  have h : scoredSegments catalog (weightsOf (k * f) (k * d) (k * l))
      = scoredSegments catalog (weightsOf f d l) := by
    unfold scoredSegments
    rw [withScore_scale f d l k hf hd hl hk]
  exact ⟨by rw [h], h⟩

theorem C14_witness :
    (0 : ℚ) ≤ 40 ∧ (0 : ℚ) ≤ 30 ∧ (0 : ℚ) < 1 / 100 ∧
    (scoredSegments busSegments
        (weightsOf (1 / 100 * 40) (1 / 100 * 30) (1 / 100 * 30))).map ScoredSegment.toSegment
      = (scoredSegments busSegments (weightsOf 40 30 30)).map ScoredSegment.toSegment :=
  ⟨by norm_num, by norm_num, by norm_num,
    (C14_ranking_scale_invariant busSegments 40 30 30 (1 / 100)
      (by norm_num) (by norm_num) (by norm_num) (by norm_num)).1⟩

/-- C15: under the all-zero weight set `{freq: 0, delay: 0, load: 0}` the
ranking returns the segments in exactly their catalog order, each with score
0. -/
theorem C15_zero_weights_keep_catalog_order (catalog : List Segment) :
    scoredSegments catalog (weightsOf 0 0 0)
      = catalog.map (fun seg => { toSegment := seg, score := 0 }) ∧
    (scoredSegments catalog (weightsOf 0 0 0)).map ScoredSegment.toSegment = catalog ∧
    (scoredSegments catalog (weightsOf 0 0 0)).map ScoredSegment.score
      = List.replicate catalog.length 0 := by
  have hmap : catalog.map (withScore (weightsOf 0 0 0))
      = catalog.map (fun seg => ({ toSegment := seg, score := 0 } : ScoredSegment)) := by
    apply List.map_congr_left
    intro seg _
    unfold withScore
    rw [computeSegmentScore_zero_weights]
  have h : scoredSegments catalog (weightsOf 0 0 0)
      = catalog.map (fun seg => ({ toSegment := seg, score := 0 } : ScoredSegment)) := by
    unfold scoredSegments
    rw [hmap]
    apply arraySort_byScoreDesc_of_const 0
    intro s hs
    obtain ⟨seg, _, rfl⟩ := List.mem_map.1 hs
    rfl
  refine ⟨h, ?_, ?_⟩
  · rw [h, List.map_map]
    exact List.map_id catalog
  · rw [h, List.map_map]
    exact List.eq_replicate_iff.2 ⟨by simp, by simp⟩

/-! ## Colour mapping: `getColorForScore` -/

theorem mathRound_intCast (n : ℤ) : mathRound (n : ℚ) = n := by
  unfold mathRound
  rw [Int.floor_eq_iff]
  constructor <;> linarith

theorem clamped_zero : clamped (some 0) = 0 := by
  simp [clamped, orElse]

theorem clamped_one : clamped (some 1) = 1 := by
  simp [clamped, orElse]

theorem clamped_of_one_lt {s : ℚ} (h : 1 < s) : clamped (some s) = 1 := by
  unfold clamped
  rw [orElse_some_zero, min_eq_left h.le, max_eq_right zero_le_one]

theorem clamped_of_neg {s : ℚ} (h : s < 0) : clamped (some s) = 0 := by
  unfold clamped
  rw [orElse_some_zero, min_eq_right (by linarith), max_eq_left h.le]

theorem clamped_eq_specClamp (s : ℚ) : clamped (some s) = specClamp s 0 1 := by
  unfold specClamp
  split_ifs with h0 h1
  · exact clamped_of_neg h0
  · exact clamped_of_one_lt h1
  · unfold clamped
    rw [orElse_some_zero, min_eq_right (not_lt.1 h1), max_eq_right (not_lt.1 h0)]

theorem mathRound_eq_specRoundHalfUp (x : ℚ) : mathRound x = specRoundHalfUp x := by
  unfold mathRound specRoundHalfUp
  have hle := Int.floor_le x
  have hlt := Int.lt_floor_add_one x
  split_ifs with h
  · rw [Int.floor_eq_iff]
    constructor <;> linarith
  · rw [Int.floor_eq_iff]
    push_cast
    constructor <;> linarith

theorem colorChannels_zero :
    colorR (some 0) = 0 ∧ colorG (some 0) = 93 ∧ colorB (some 0) = 170 := by
  unfold colorR colorG colorB
  rw [clamped_zero]
  refine ⟨?_, ?_, ?_⟩
  · simpa [rStart] using mathRound_intCast 0
  · simpa [gStart] using mathRound_intCast 93
  · simpa [bStart] using mathRound_intCast 170

theorem colorChannels_one :
    colorR (some 1) = 239 ∧ colorG (some 1) = 62 ∧ colorB (some 1) = 66 := by
  unfold colorR colorG colorB
  rw [clamped_one]
  refine ⟨?_, ?_, ?_⟩
  · simpa [rStart, rEnd] using mathRound_intCast 239
  · simpa [gStart, gEnd] using mathRound_intCast 62
  · simpa [bStart, bEnd] using mathRound_intCast 66

/-- C17: `getColorForScore(0)` has the channels (0, 93, 170) and is the string
`rgb(0, 93, 170)`, `getColorForScore(1)` has the channels (239, 62, 66) and is
the string `rgb(239, 62, 66)`; these are the channels of the brand colours
`SEPTA_BLUE = #005DAA` and `SEPTA_RED = #EF3E42`. -/
theorem C17_endpoint_colors :
    (colorR (some 0), colorG (some 0), colorB (some 0)) = (0, 93, 170) ∧
    getColorForScore (some 0) = "rgb(0, 93, 170)" ∧
    (colorR (some 1), colorG (some 1), colorB (some 1)) = (239, 62, 66) ∧
    getColorForScore (some 1) = "rgb(239, 62, 66)" ∧
    SEPTA_BLUE = "#005DAA" ∧ hexChannels SEPTA_BLUE = some (0, 93, 170) ∧
    SEPTA_RED = "#EF3E42" ∧ hexChannels SEPTA_RED = some (239, 62, 66) := by
  obtain ⟨r0, g0, b0⟩ := colorChannels_zero
  obtain ⟨r1, g1, b1⟩ := colorChannels_one
  refine ⟨by rw [r0, g0, b0], ?_, by rw [r1, g1, b1], ?_, rfl, by decide, rfl, by decide⟩
  · unfold getColorForScore
    rw [r0, g0, b0]
    decide
  · unfold getColorForScore
    rw [r1, g1, b1]
    decide

/-- C18: a score above 1 is coloured like the score 1, and a score below 0
like the score 0. -/
theorem C18_color_clamped_outside_range (s t : ℚ) (hs : 1 < s) (ht : t < 0) :
    getColorForScore (some s) = getColorForScore (some 1) ∧
    getColorForScore (some t) = getColorForScore (some 0) := by
  constructor
  · unfold getColorForScore colorR colorG colorB
    rw [clamped_of_one_lt hs, clamped_one]
  · unfold getColorForScore colorR colorG colorB
    rw [clamped_of_neg ht, clamped_zero]

theorem C18_witness :
    (1 : ℚ) < 2 ∧ (-1 : ℚ) < 0 ∧
    getColorForScore (some 2) = getColorForScore (some 1) ∧
    getColorForScore (some (-1)) = getColorForScore (some 0) :=
  ⟨by norm_num, by norm_num,
    C18_color_clamped_outside_range 2 (-1) (by norm_num) (by norm_num)⟩

/-- C19: for every score each channel of `getColorForScore` is
`round(start + (end - start) * clamp(score, 0, 1))` with round-half-up rounding
and (start, end) = (0, 239) for red, (93, 62) for green, (170, 66) for blue;
the score 1/2 gives the channels (120, 78, 118). -/
theorem C19_channel_formula (score : ℚ) :
    colorR (some score) = specChannel 0 239 score ∧
    colorG (some score) = specChannel 93 62 score ∧
    colorB (some score) = specChannel 170 66 score ∧
    getColorForScore (some score)
      = rgbString (specChannel 0 239 score) (specChannel 93 62 score)
          (specChannel 170 66 score) ∧
    (colorR (some (1 / 2)), colorG (some (1 / 2)), colorB (some (1 / 2))) = (120, 78, 118) ∧
    getColorForScore (some (1 / 2)) = "rgb(120, 78, 118)" := by
  have hr : ∀ x : ℚ, colorR (some x) = specChannel 0 239 x := fun x => by
    unfold colorR specChannel
    rw [mathRound_eq_specRoundHalfUp, clamped_eq_specClamp]
    rfl
  have hg : ∀ x : ℚ, colorG (some x) = specChannel 93 62 x := fun x => by
    unfold colorG specChannel
    rw [mathRound_eq_specRoundHalfUp, clamped_eq_specClamp]
    rfl
  have hb : ∀ x : ℚ, colorB (some x) = specChannel 170 66 x := fun x => by
    unfold colorB specChannel
    rw [mathRound_eq_specRoundHalfUp, clamped_eq_specClamp]
    rfl
  have hc : clamped (some (1 / 2)) = 1 / 2 := by
    unfold clamped
    rw [orElse_some_zero, min_eq_right (by norm_num), max_eq_right (by norm_num)]
  have r2 : colorR (some (1 / 2)) = 120 := by
    unfold colorR mathRound
    rw [hc, Int.floor_eq_iff]
    norm_num [rStart, rEnd]
  have g2 : colorG (some (1 / 2)) = 78 := by
    unfold colorG mathRound
    rw [hc, Int.floor_eq_iff]
    norm_num [gStart, gEnd]
  have b2 : colorB (some (1 / 2)) = 118 := by
    unfold colorB mathRound
    rw [hc, Int.floor_eq_iff]
    norm_num [bStart, bEnd]
  refine ⟨hr score, hg score, hb score, ?_, by rw [r2, g2, b2], ?_⟩
  · unfold getColorForScore
    rw [hr, hg, hb]
  · unfold getColorForScore
    rw [r2, g2, b2]
    decide

/-! ## Degenerate weight sets -/

theorem totalWeight_of_sum_eq_zero (weights : Weights)
    (hsum : orElse weights.freq 0 + orElse weights.delay 0 + orElse weights.load 0 = 0) :
    totalWeight weights = 1 := by
  unfold totalWeight
  rw [hsum]
  exact orElse_some_one_zero

/-- C20, counterexample: the weights `{freq: 1, delay: -1, load: 0}` sum to
zero and the total is replaced by 1, yet the frequency contribution
`wFreq * freqScore` of `23_north_1` is 9/10, not zero. -/
theorem C20_counterexample_mixed_sign_weights :
    (1 : ℚ) + (-1) + 0 = 0 ∧ totalWeight (weightsOf 1 (-1) 0) = 1 ∧
    wFreq (weightsOf 1 (-1) 0) * freqScore seg_23_north_1 = 9 / 10 ∧
    ¬ (wFreq (weightsOf 1 (-1) 0) * freqScore seg_23_north_1 = 0) := by
  have ht : totalWeight (weightsOf 1 (-1) 0) = 1 :=
    totalWeight_weightsOf_of_eq (by norm_num)
  have hc : wFreq (weightsOf 1 (-1) 0) * freqScore seg_23_north_1 = 9 / 10 := by
    rw [wFreq, ht]
    norm_num [weightsOf, freqScore, maxFreq, seg_23_north_1]
  refine ⟨by norm_num, ht, hc, ?_⟩
  rw [hc]
  norm_num

/-- C20, amended: when the three weights (a missing one counting as 0) sum to
zero, `computeSegmentScore` substitutes a total of 1, so each fraction is the
weight itself; when the three weights are moreover non-negative, each of the
contributions `wFreq*freqScore`, `wDelay*delayScore`, `wLoad*loadScore` is
zero. -/
theorem C20_zero_sum_weights (segment : Segment) (weights : Weights)
    (hsum : orElse weights.freq 0 + orElse weights.delay 0 + orElse weights.load 0 = 0) :
    totalWeight weights = 1 ∧
    wFreq weights = orElse weights.freq 0 ∧ wDelay weights = orElse weights.delay 0 ∧
    wLoad weights = orElse weights.load 0 ∧
    (0 ≤ orElse weights.freq 0 → 0 ≤ orElse weights.delay 0 → 0 ≤ orElse weights.load 0 →
      wFreq weights * freqScore segment = 0 ∧ wDelay weights * delayScore segment = 0 ∧
      wLoad weights * loadScore segment = 0) := by
  have ht := totalWeight_of_sum_eq_zero weights hsum
  have hf : wFreq weights = orElse weights.freq 0 := by rw [wFreq, ht, div_one]
  have hd : wDelay weights = orElse weights.delay 0 := by rw [wDelay, ht, div_one]
  have hl : wLoad weights = orElse weights.load 0 := by rw [wLoad, ht, div_one]
  refine ⟨ht, hf, hd, hl, fun h1 h2 h3 => ?_⟩
  obtain ⟨e1, e2, e3⟩ := weights_eq_zero_of_sum h1 h2 h3 hsum
  rw [hf, hd, hl, e1, e2, e3]
  simp

theorem C20_witness :
    orElse (weightsOf 0 0 0).freq 0 + orElse (weightsOf 0 0 0).delay 0
      + orElse (weightsOf 0 0 0).load 0 = 0 ∧
    totalWeight (weightsOf 0 0 0) = 1 ∧
    wFreq (weightsOf 0 0 0) * freqScore seg_23_north_1 = 0 ∧
    wDelay (weightsOf 0 0 0) * delayScore seg_23_north_1 = 0 ∧
    wLoad (weightsOf 0 0 0) * loadScore seg_23_north_1 = 0 :=
  ⟨by simp [weightsOf],
    (C20_zero_sum_weights seg_23_north_1 (weightsOf 0 0 0) (by simp [weightsOf])).1,
    (C20_zero_sum_weights seg_23_north_1 (weightsOf 0 0 0) (by simp [weightsOf])).2.2.2.2
      (by simp [weightsOf]) (by simp [weightsOf]) (by simp [weightsOf])⟩

/-! ## The catalog is not mutated -/

theorem getElem?_append_of_eq_some {α : Type} {l : List α} {i : ℕ} {a : α}
    (h : l[i]? = some a) (extra : List α) : (l ++ extra)[i]? = some a := by
  obtain ⟨hi, _⟩ := List.getElem?_eq_some_iff.1 h
  rw [List.getElem?_append_left hi, h]

theorem forall₂_range'_append {α : Type} (l base : List α) :
    List.Forall₂ (fun e x => (base ++ l)[e]? = some x)
      (List.range' base.length l.length) l := by
  induction l generalizing base with
  | nil => exact List.Forall₂.nil
  | cons x xs ih =>
    rw [List.length_cons, List.range'_succ]
    refine List.Forall₂.cons ?_ ?_
    · rw [List.getElem?_append_right (le_refl _)]
      simp
    · have h := ih (base ++ [x])
      rw [List.length_append, List.length_singleton, List.append_assoc,
        List.singleton_append] at h
      exact h

theorem mapElements_eq (weights : Weights) (elems : List ℕ) (catalog : List Segment)
    (h : Heap)
    (hobjs : List.Forall₂ (fun e seg => h.objects[e]? = some { props := seg, score := none })
      elems catalog) :
    mapElements weights h elems
      = some ({ objects := h.objects ++ catalog.map (fun seg =>
                  { props := seg, score := some (computeSegmentScore seg weights) }),
                arrays := h.arrays },
              List.range' h.objects.length catalog.length) := by
  induction elems generalizing catalog h with
  | nil =>
    cases hobjs
    simp [mapElements]
  | cons e es ih =>
    cases hobjs with
    | @cons _ seg _ segs he hes =>
      have hes' : List.Forall₂
          (fun r x => (scoreCallback weights h { props := seg, score := none }).1.objects[r]?
            = some { props := x, score := none }) es segs :=
        hes.imp fun _ _ hx => getElem?_append_of_eq_some hx _
      unfold mapElements
      rw [he]
      simp only []
      rw [ih segs _ hes']
      simp [scoreCallback, List.range'_succ]

theorem sortInsert_forall₂ {α β : Type} {R : α → β → Prop} {c₁ : α → α → ℚ}
    {c₂ : β → β → ℚ} (hc : ∀ a a' b b', R a b → R a' b' → c₁ a a' = c₂ b b')
    {x : α} {y : β} (hxy : R x y) {l₁ : List α} {l₂ : List β}
    (hl : List.Forall₂ R l₁ l₂) :
    List.Forall₂ R (sortInsert c₁ x l₁) (sortInsert c₂ y l₂) := by
  induction hl with
  | nil => exact List.Forall₂.cons hxy List.Forall₂.nil
  | @cons a b as bs hab has ih =>
    unfold sortInsert
    rw [hc x a y b hxy hab]
    split_ifs
    · exact List.Forall₂.cons hxy (List.Forall₂.cons hab has)
    · exact List.Forall₂.cons hab ih

theorem arraySort_forall₂ {α β : Type} {R : α → β → Prop} {c₁ : α → α → ℚ}
    {c₂ : β → β → ℚ} (hc : ∀ a a' b b', R a b → R a' b' → c₁ a a' = c₂ b b')
    {l₁ : List α} {l₂ : List β} (hl : List.Forall₂ R l₁ l₂) :
    List.Forall₂ R (arraySort c₁ l₁) (arraySort c₂ l₂) := by
  induction hl with
  | nil => exact List.Forall₂.nil
  | cons hab _ ih =>
    unfold arraySort
    exact sortInsert_forall₂ hc hab ih

theorem scoreAt_of_eq_some {h : Heap} {e : ℕ} {s : ScoredSegment}
    (he : h.objects[e]? = some { props := s.toSegment, score := some s.score }) :
    scoreAt h e = s.score := by
  unfold scoreAt
  rw [he]
  rfl

theorem scoredSegmentsInStore_eq (weights : Weights) (h : Heap) (catalogRef : ℕ)
    (elems : List ℕ) (catalog : List Segment)
    (harr : h.arrays[catalogRef]? = some elems)
    (hobjs : List.Forall₂ (fun e seg => h.objects[e]? = some { props := seg, score := none })
      elems catalog) :
    ∃ mapped : Heap,
      mapped.objects = h.objects ++ catalog.map (fun seg =>
        { props := seg, score := some (computeSegmentScore seg weights) }) ∧
      scoredSegmentsInStore weights h catalogRef
        = some ({ objects := mapped.objects,
                  arrays := h.arrays ++
                    [arraySort (fun a b => scoreAt mapped b - scoreAt mapped a)
                      (List.range' h.objects.length catalog.length)] },
                h.arrays.length) := by
  refine ⟨{ objects := h.objects ++ catalog.map (fun seg =>
              { props := seg, score := some (computeSegmentScore seg weights) }),
            arrays := h.arrays ++ [List.range' h.objects.length catalog.length] }, rfl, ?_⟩
  unfold scoredSegmentsInStore arrayMap
  rw [harr]
  simp only []
  rw [mapElements_eq weights elems catalog h hobjs]
  simp only []
  unfold arraySortInPlace
  simp only []
  rw [List.getElem?_concat_length]
  simp only []
  rw [List.set_append_right _ _ (le_refl _)]
  simp

/-- C16: computing the ranked sequence leaves the catalog as it was. In a store
where the catalog is the array at `catalogRef`, holding the objects of the
segments `catalog` (none with a `score`), the run of `.map(...).sort(...)`
succeeds; afterwards the catalog array has the same elements in the same order,
the objects they refer to have the same properties and still no `score`, the
run has only added objects and one array to the store, and the array it
returns is this new one, distinct from the catalog and holding the ranking
`scoredSegments`. -/
theorem C16_catalog_not_mutated (weights : Weights) (h : Heap) (catalogRef : ℕ)
    (elems : List ℕ) (catalog : List Segment)
    (harr : h.arrays[catalogRef]? = some elems)
    (hobjs : List.Forall₂ (fun e seg => h.objects[e]? = some { props := seg, score := none })
      elems catalog) :
    ∃ (h' : Heap) (ranked : ℕ) (rankedElems : List ℕ),
      scoredSegmentsInStore weights h catalogRef = some (h', ranked) ∧
      h'.arrays[catalogRef]? = some elems ∧
      List.Forall₂ (fun e seg => h'.objects[e]? = some { props := seg, score := none })
        elems catalog ∧
      (∃ newObjects, h'.objects = h.objects ++ newObjects) ∧
      (∃ newArray, h'.arrays = h.arrays ++ [newArray]) ∧
      ranked ≠ catalogRef ∧
      h'.arrays[ranked]? = some rankedElems ∧
      List.Forall₂
        (fun e s => h'.objects[e]? = some { props := s.toSegment, score := some s.score })
        rankedElems (scoredSegments catalog weights) := by
  obtain ⟨mapped, hmapped, hrun⟩ :=
    scoredSegmentsInStore_eq weights h catalogRef elems catalog harr hobjs
  obtain ⟨hlt, _⟩ := List.getElem?_eq_some_iff.1 harr
  have hfresh : List.Forall₂
      (fun e s => mapped.objects[e]? = some { props := s.toSegment, score := some s.score })
      (List.range' h.objects.length catalog.length) (catalog.map (withScore weights)) := by
    rw [List.forall₂_map_right_iff, hmapped]
    have hnew := forall₂_range'_append (catalog.map (fun seg =>
      ({ props := seg, score := some (computeSegmentScore seg weights) } : SegmentObject)))
      h.objects
    rw [List.forall₂_map_right_iff, List.length_map] at hnew
    exact hnew
  refine ⟨_, _, _, hrun, getElem?_append_of_eq_some harr _, ?_, ⟨_, hmapped⟩, ⟨_, rfl⟩,
    fun heq => absurd hlt (by rw [← heq]; exact lt_irrefl _),
    List.getElem?_concat_length _ _, ?_⟩
  · rw [hmapped]
    exact hobjs.imp fun _ _ hx => getElem?_append_of_eq_some hx _
  · unfold scoredSegments
    refine arraySort_forall₂ (fun a a' b b' hab hab' => ?_) hfresh
    rw [@scoreAt_of_eq_some mapped a b hab, @scoreAt_of_eq_some mapped a' b' hab']
    rfl

theorem C16_witness :
    ∃ (h' : Heap) (ranked : ℕ),
      scoredSegmentsInStore initialPriorityWeights catalogHeap 0 = some (h', ranked) ∧
      h'.arrays[0]? = some [0, 1, 2, 3, 4, 5] ∧
      List.Forall₂ (fun e seg => h'.objects[e]? = some { props := seg, score := none })
        [0, 1, 2, 3, 4, 5] busSegments ∧
      ranked ≠ 0 :=
  let ⟨h', ranked, _, hrun, harr, hobjs, _, _, hne, _⟩ :=
    C16_catalog_not_mutated initialPriorityWeights catalogHeap 0 [0, 1, 2, 3, 4, 5] busSegments
      rfl (by simp [catalogHeap, busSegments])
  ⟨h', ranked, hrun, harr, hobjs, hne⟩

/-! ## Weights of any sign, missing weights -/

theorem totalWeight_ne_zero (weights : Weights) : totalWeight weights ≠ 0 := by
  unfold totalWeight
  by_cases h : orElse weights.freq 0 + orElse weights.delay 0 + orElse weights.load 0 = 0
  · rw [h, orElse_some_one_zero]
    exact one_ne_zero
  · rw [orElse_some_one_of_ne h]
    exact h

theorem totalWeight_pos_of_nonneg {f d l : ℚ} (hf : 0 ≤ f) (hd : 0 ≤ d) (hl : 0 ≤ l) :
    0 < totalWeight (weightsOf f d l) := by
  by_cases h : f + d + l = 0
  · rw [totalWeight_weightsOf_of_eq h]
    exact zero_lt_one
  · rw [totalWeight_weightsOf_of_ne h]
    exact lt_of_le_of_ne (by positivity) (Ne.symm h)

theorem fractions_nonneg {f d l : ℚ} (hf : 0 ≤ f) (hd : 0 ≤ d) (hl : 0 ≤ l) :
    0 ≤ wFreq (weightsOf f d l) ∧ 0 ≤ wDelay (weightsOf f d l) ∧
      0 ≤ wLoad (weightsOf f d l) := by
  have ht := (totalWeight_pos_of_nonneg hf hd hl).le
  unfold wFreq wDelay wLoad
  simp only [weightsOf, orElse_some_zero] at ht ⊢
  exact ⟨div_nonneg hf ht, div_nonneg hd ht, div_nonneg hl ht⟩

theorem orElse_zero_getD (x : Option ℚ) : orElse (some (x.getD 0)) 0 = orElse x 0 := by
  cases x with
  | none => simp [orElse]
  | some v => simp

theorem busSegments_measurements (seg : Segment) (hseg : seg ∈ busSegments) :
    0 ≤ seg.freq_per_hr ∧ seg.freq_per_hr ≤ 20 ∧ 0 ≤ seg.avg_delay_min ∧
      0 ≤ seg.load_factor ∧ seg.load_factor ≤ 1 := by
  simp only [busSegments, List.mem_cons, List.mem_singleton, List.not_mem_nil, or_false]
    at hseg
  rcases hseg with rfl | rfl | rfl | rfl | rfl | rfl
  · norm_num [seg_23_north_1]
  · norm_num [seg_23_south_1]
  · norm_num [seg_47_north_1]
  · norm_num [seg_47_south_1]
  · norm_num [seg_52_east_1]
  · norm_num [seg_52_west_1]

/-- C21: for every weight set, with weights of any sign or missing, the
divisor `totalWeight` is non-zero, so each of the three divisions of
`computeSegmentScore` is a genuine quotient: the fraction times `totalWeight`
gives back the weight. -/
theorem C21_totalWeight_ne_zero (weights : Weights) :
    totalWeight weights ≠ 0 ∧
    wFreq weights * totalWeight weights = orElse weights.freq 0 ∧
    wDelay weights * totalWeight weights = orElse weights.delay 0 ∧
    wLoad weights * totalWeight weights = orElse weights.load 0 := by
  have h := totalWeight_ne_zero weights
  exact ⟨h, div_mul_cancel₀ _ h, div_mul_cancel₀ _ h, div_mul_cancel₀ _ h⟩

/-- C22: negative weights are not rejected: for the segment `23_north_1`,
whose measurements are valid, the weights `{freq: -3, delay: 4, load: 0}` give
the negative score -3/10. -/
theorem C22_negative_weight_negative_score :
    ∃ (segment : Segment) (f d l : ℚ),
      0 ≤ segment.freq_per_hr ∧ segment.freq_per_hr ≤ 20 ∧ 0 ≤ segment.avg_delay_min ∧
      0 ≤ segment.load_factor ∧ segment.load_factor ≤ 1 ∧
      (f < 0 ∨ d < 0 ∨ l < 0) ∧
      computeSegmentScore segment (weightsOf f d l) = -3 / 10 ∧
      computeSegmentScore segment (weightsOf f d l) < 0 := by
  have hscore : computeSegmentScore seg_23_north_1 (weightsOf (-3) 4 0) = -3 / 10 := by
    rw [computeSegmentScore_of_ne _ (by norm_num)]
    norm_num [seg_23_north_1, min_def]
  obtain ⟨h1, h2, h3, h4, h5⟩ :=
    busSegments_measurements seg_23_north_1 (by simp [busSegments])
  refine ⟨seg_23_north_1, -3, 4, 0, h1, h2, h3, h4, h5, Or.inl (by norm_num), hscore, ?_⟩
  rw [hscore]
  norm_num

/-- C23: for the built-in catalog `busSegments` and three non-negative weights
(in particular every slider setting in 0..100), the score of every entry of
`scoredSegments` lies in [0, 1]. -/
theorem C23_catalog_scores_in_unit_interval (f d l : ℚ)
    (hf : 0 ≤ f) (hd : 0 ≤ d) (hl : 0 ≤ l)
    (s : ScoredSegment) (hs : s ∈ scoredSegments busSegments (weightsOf f d l)) :
    0 ≤ s.score ∧ s.score ≤ 1 := by
  obtain ⟨seg, hseg, rfl⟩ :=
    List.mem_map.1 ((scoredSegments_perm busSegments (weightsOf f d l)).mem_iff.1 hs)
  obtain ⟨h1, h2, h3, h4, h5⟩ := busSegments_measurements seg hseg
  exact computeSegmentScore_mem_unit seg f d l h1 h2 h3 h4 h5 hf hd hl

theorem C23_witness :
    (0 : ℚ) ≤ 100 ∧ (0 : ℚ) ≤ 0 ∧ (0 : ℚ) ≤ 55 ∧
    withScore (weightsOf 100 0 55) seg_52_west_1
      ∈ scoredSegments busSegments (weightsOf 100 0 55) ∧
    0 ≤ (withScore (weightsOf 100 0 55) seg_52_west_1).score ∧
    (withScore (weightsOf 100 0 55) seg_52_west_1).score ≤ 1 :=
  ⟨by norm_num, le_refl 0, by norm_num,
    (scoredSegments_perm busSegments (weightsOf 100 0 55)).mem_iff.2
      (List.mem_map.2 ⟨seg_52_west_1, by simp [busSegments], rfl⟩),
    C23_catalog_scores_in_unit_interval 100 0 55 (by norm_num) (le_refl 0) (by norm_num) _
      ((scoredSegments_perm busSegments (weightsOf 100 0 55)).mem_iff.2
        (List.mem_map.2 ⟨seg_52_west_1, by simp [busSegments], rfl⟩))⟩

/-- C24: for three non-negative weights the composite score is monotone in each
measurement, the other inputs fixed: non-increasing in `avg_delay_min`,
non-decreasing in `freq_per_hr` and non-decreasing in `load_factor`. -/
theorem C24_score_monotone_in_measurements (segment : Segment) (f d l : ℚ)
    (hf : 0 ≤ f) (hd : 0 ≤ d) (hl : 0 ≤ l) (v₁ v₂ : ℚ) (hv : v₁ ≤ v₂) :
    computeSegmentScore { segment with avg_delay_min := v₂ } (weightsOf f d l)
      ≤ computeSegmentScore { segment with avg_delay_min := v₁ } (weightsOf f d l) ∧
    computeSegmentScore { segment with freq_per_hr := v₁ } (weightsOf f d l)
      ≤ computeSegmentScore { segment with freq_per_hr := v₂ } (weightsOf f d l) ∧
    computeSegmentScore { segment with load_factor := v₁ } (weightsOf f d l)
      ≤ computeSegmentScore { segment with load_factor := v₂ } (weightsOf f d l) := by
  obtain ⟨hwf, hwd, hwl⟩ := fractions_nonneg hf hd hl
  refine ⟨?_, ?_, ?_⟩
  · have hmin : min (v₁ / 10) 1 ≤ min (v₂ / 10) 1 :=
      min_le_min (div_le_div_of_nonneg_right hv (by norm_num)) (le_refl 1)
    have := mul_le_mul_of_nonneg_left hmin hwd
    simp only [computeSegmentScore, freqScore, delayScore, loadScore, maxDelay]
    linarith
  · have hdiv : v₁ / 20 ≤ v₂ / 20 := div_le_div_of_nonneg_right hv (by norm_num)
    have := mul_le_mul_of_nonneg_left hdiv hwf
    simp only [computeSegmentScore, freqScore, delayScore, loadScore, maxFreq]
    linarith
  · have hdiv : v₁ / 1 ≤ v₂ / 1 := div_le_div_of_nonneg_right hv (by norm_num)
    have := mul_le_mul_of_nonneg_left hdiv hwl
    simp only [computeSegmentScore, freqScore, delayScore, loadScore, maxLoad]
    linarith

theorem C24_witness :
    (0 : ℚ) ≤ 40 ∧ (0 : ℚ) ≤ 30 ∧ (2 : ℚ) ≤ 8 ∧
    computeSegmentScore { seg_23_north_1 with avg_delay_min := 8 } (weightsOf 40 30 30)
      ≤ computeSegmentScore { seg_23_north_1 with avg_delay_min := 2 } (weightsOf 40 30 30) :=
  ⟨by norm_num, by norm_num, by norm_num,
    (C24_score_monotone_in_measurements seg_23_north_1 40 30 30
      (by norm_num) (by norm_num) (by norm_num) 2 8 (by norm_num)).1⟩

/-! ## Network view and animation -/

theorem mathRound_eq_of_bounds {x : ℚ} {n : ℤ} (h₁ : (n : ℚ) ≤ x + 1 / 2)
    (h₂ : x + 1 / 2 < n + 1) : mathRound x = n := by
  unfold mathRound
  rw [Int.floor_eq_iff]
  exact ⟨h₁, h₂⟩

theorem clamped_of_mem_unit {s : ℚ} (h₀ : 0 ≤ s) (h₁ : s ≤ 1) : clamped (some s) = s := by
  unfold clamped
  rw [orElse_some_zero, min_eq_right h₁, max_eq_right h₀]

theorem baseScore_freq (seg : Segment) : baseScore "freq" seg = seg.freq_per_hr / 20 := by
  unfold baseScore
  rw [if_pos rfl]

theorem baseScore_delay (seg : Segment) :
    baseScore "delay" seg = 1 - min (seg.avg_delay_min / 10) 1 := by
  unfold baseScore
  rw [if_neg (by decide), if_pos rfl]

theorem baseScore_load (seg : Segment) : baseScore "load" seg = seg.load_factor := by
  unfold baseScore
  rw [if_neg (by decide), if_neg (by decide)]

/-- C25, the code at two catalog segments: with the `'delay'` metric the less
delayed `47_south_1` (3 minutes) gets the base score 7/10 and the red channel
167, the more delayed `52_east_1` (7 minutes) gets the base score 3/10 and the
red channel 72; the more delayed segment is drawn closer to blue. -/
theorem C25_delay_metric_lowers_score_with_delay :
    seg_47_south_1.avg_delay_min < seg_52_east_1.avg_delay_min ∧
    baseScore "delay" seg_47_south_1 = 7 / 10 ∧
    baseScore "delay" seg_52_east_1 = 3 / 10 ∧
    baseScore "delay" seg_52_east_1 < baseScore "delay" seg_47_south_1 ∧
    colorR (some (baseScore "delay" seg_47_south_1)) = 167 ∧
    colorR (some (baseScore "delay" seg_52_east_1)) = 72 ∧
    networkColor "delay" seg_47_south_1 = "rgb(167, 71, 97)" ∧
    networkColor "delay" seg_52_east_1 = "rgb(72, 84, 139)" := by
  have hs : baseScore "delay" seg_47_south_1 = 7 / 10 := by
    rw [baseScore_delay]
    norm_num [seg_47_south_1, min_def]
  have he : baseScore "delay" seg_52_east_1 = 3 / 10 := by
    rw [baseScore_delay]
    norm_num [seg_52_east_1, min_def]
  have cs : clamped (some (7 / 10)) = 7 / 10 :=
    clamped_of_mem_unit (by norm_num) (by norm_num)
  have ce : clamped (some (3 / 10)) = 3 / 10 :=
    clamped_of_mem_unit (by norm_num) (by norm_num)
  have rs : colorR (some (7 / 10)) = 167 := by
    unfold colorR
    rw [cs]
    exact mathRound_eq_of_bounds (by norm_num [rStart, rEnd]) (by norm_num [rStart, rEnd])
  have gs : colorG (some (7 / 10)) = 71 := by
    unfold colorG
    rw [cs]
    exact mathRound_eq_of_bounds (by norm_num [gStart, gEnd]) (by norm_num [gStart, gEnd])
  have bs : colorB (some (7 / 10)) = 97 := by
    unfold colorB
    rw [cs]
    exact mathRound_eq_of_bounds (by norm_num [bStart, bEnd]) (by norm_num [bStart, bEnd])
  have re : colorR (some (3 / 10)) = 72 := by
    unfold colorR
    rw [ce]
    exact mathRound_eq_of_bounds (by norm_num [rStart, rEnd]) (by norm_num [rStart, rEnd])
  have ge : colorG (some (3 / 10)) = 84 := by
    unfold colorG
    rw [ce]
    exact mathRound_eq_of_bounds (by norm_num [gStart, gEnd]) (by norm_num [gStart, gEnd])
  have be : colorB (some (3 / 10)) = 139 := by
    unfold colorB
    rw [ce]
    exact mathRound_eq_of_bounds (by norm_num [bStart, bEnd]) (by norm_num [bStart, bEnd])
  refine ⟨by norm_num [seg_47_south_1, seg_52_east_1], hs, he, ?_, ?_, ?_, ?_, ?_⟩
  · rw [hs, he]
    norm_num
  · rw [hs, rs]
  · rw [he, re]
  · unfold networkColor getColorForScore
    rw [hs, rs, gs, bs]
    decide
  · unfold networkColor getColorForScore
    rw [he, re, ge, be]
    decide

theorem frameIndexAfter_lt (ticks : ℕ) : frameIndexAfter ticks < animatedTripFrames.length := by
  cases ticks with
  | zero => decide
  | succ n => exact Nat.mod_lt _ (by decide)

/-- C26: starting from index 0, after any number of timer steps
`prev -> (prev + 1) % animatedTripFrames.length` the index is below 5, the
number of frames, so the lookup `animatedTripFrames[animationFrameIndex]`
yields one of the five frames. -/
theorem C26_frame_index_in_bounds (ticks : ℕ) :
    animatedTripFrames.length = 5 ∧ 0 ≤ frameIndexAfter ticks ∧
    frameIndexAfter ticks < 5 ∧
    ∃ frame, currentFrame (frameIndexAfter ticks) = some frame ∧
      frame ∈ animatedTripFrames := by
  have hlt := frameIndexAfter_lt ticks
  refine ⟨rfl, Nat.zero_le _, hlt, animatedTripFrames[frameIndexAfter ticks], ?_, ?_⟩
  · unfold currentFrame
    exact List.getElem?_eq_getElem hlt
  · exact List.getElem_mem _

/-- C27: with all the weight `w > 0` on one criterion, `computeSegmentScore`
is that criterion's own score, which is the base score the network view
computes for the metrics `'freq'`, `'delay'` and `'load'`. -/
theorem C27_single_criterion_score (segment : Segment) (w : ℚ) (hw : 0 < w) :
    computeSegmentScore segment (weightsOf w 0 0) = segment.freq_per_hr / 20 ∧
    computeSegmentScore segment (weightsOf 0 w 0)
      = 1 - min (segment.avg_delay_min / 10) 1 ∧
    computeSegmentScore segment (weightsOf 0 0 w) = segment.load_factor ∧
    computeSegmentScore segment (weightsOf w 0 0) = baseScore "freq" segment ∧
    computeSegmentScore segment (weightsOf 0 w 0) = baseScore "delay" segment ∧
    computeSegmentScore segment (weightsOf 0 0 w) = baseScore "load" segment := by
  have hw0 : w ≠ 0 := ne_of_gt hw
  have h1 : computeSegmentScore segment (weightsOf w 0 0) = segment.freq_per_hr / 20 := by
    rw [computeSegmentScore_of_ne segment (by simpa using hw0)]
    field_simp
    ring
  have h2 : computeSegmentScore segment (weightsOf 0 w 0)
      = 1 - min (segment.avg_delay_min / 10) 1 := by
    rw [computeSegmentScore_of_ne segment (by simpa using hw0)]
    generalize min (segment.avg_delay_min / 10) 1 = m
    field_simp
  have h3 : computeSegmentScore segment (weightsOf 0 0 w) = segment.load_factor := by
    rw [computeSegmentScore_of_ne segment (by simpa using hw0)]
    field_simp
  exact ⟨h1, h2, h3, by rw [h1, baseScore_freq], by rw [h2, baseScore_delay],
    by rw [h3, baseScore_load]⟩

theorem C27_witness :
    (0 : ℚ) < 100 ∧
    computeSegmentScore seg_23_north_1 (weightsOf 100 0 0)
      = baseScore "freq" seg_23_north_1 ∧
    computeSegmentScore seg_23_north_1 (weightsOf 0 100 0)
      = baseScore "delay" seg_23_north_1 ∧
    computeSegmentScore seg_23_north_1 (weightsOf 0 0 100)
      = baseScore "load" seg_23_north_1 :=
  ⟨by norm_num, (C27_single_criterion_score seg_23_north_1 100 (by norm_num)).2.2.2⟩

/-! ## Initial ranking, missing weights, colour range -/

/-- C28: under the initial weights `{freq: 40, delay: 30, load: 30}` the
ranking of `busSegments` is 23_north_1 (0.795), 23_south_1 (0.75),
47_south_1 (0.70), 47_north_1 (0.67), 52_west_1 (0.575), 52_east_1 (0.566),
and no two of the scores are equal. -/
theorem C28_initial_ranking :
    (scoredSegments busSegments initialPriorityWeights).map (fun s => (s.id, s.score))
      = [("23_north_1", 0.795), ("23_south_1", 0.75), ("47_south_1", 0.70),
          ("47_north_1", 0.67), ("52_west_1", 0.575), ("52_east_1", 0.566)] ∧
    (scoredSegments busSegments initialPriorityWeights).map ScoredSegment.toSegment
      = [seg_23_north_1, seg_23_south_1, seg_47_south_1, seg_47_north_1, seg_52_west_1,
          seg_52_east_1] ∧
    ((scoredSegments busSegments initialPriorityWeights).map ScoredSegment.score).Nodup := by
  rw [scoredSegments_busSegments_initial]
  refine ⟨?_, rfl, ?_⟩
  · simp only [List.map, score_withScore, score_initial_23_north_1,
      score_initial_23_south_1, score_initial_47_north_1, score_initial_47_south_1,
      score_initial_52_east_1, score_initial_52_west_1]
    norm_num [withScore, seg_23_north_1, seg_23_south_1, seg_47_north_1, seg_47_south_1,
      seg_52_east_1, seg_52_west_1]
  · simp only [List.map, score_withScore, score_initial_23_north_1,
      score_initial_23_south_1, score_initial_47_north_1, score_initial_47_south_1,
      score_initial_52_east_1, score_initial_52_west_1]
    norm_num

/-- C29: a weight missing from the weight set counts as 0: the score equals
the score under the weight set in which each missing weight is replaced by 0,
and the entirely empty weight set scores every segment 0. -/
theorem C29_missing_weight_is_zero (segment : Segment) (weights : Weights) :
    computeSegmentScore segment weights
      = computeSegmentScore segment
          (weightsOf (weights.freq.getD 0) (weights.delay.getD 0) (weights.load.getD 0)) ∧
    computeSegmentScore segment { freq := none, delay := none, load := none } = 0 := by
  constructor
  · simp only [computeSegmentScore, wFreq, wDelay, wLoad, totalWeight, weightsOf,
      orElse_zero_getD]
  · simp [computeSegmentScore, wFreq, wDelay, wLoad, orElse]

theorem clamped_mem_unit (score : Option ℚ) : 0 ≤ clamped score ∧ clamped score ≤ 1 := by
  unfold clamped
  exact ⟨le_max_left _ _, max_le zero_le_one (min_le_left _ _)⟩

theorem clamped_mono {s t : ℚ} (h : s ≤ t) : clamped (some s) ≤ clamped (some t) := by
  unfold clamped
  rw [orElse_some_zero, orElse_some_zero]
  exact max_le_max (le_refl 0) (min_le_min (le_refl 1) h)

theorem mathRound_mono {x y : ℚ} (h : x ≤ y) : mathRound x ≤ mathRound y := by
  unfold mathRound
  exact Int.floor_mono (by linarith)

/-- C30: for every score, present or missing, the channels of
`getColorForScore` are integers with `0 ≤ r ≤ 239`, `62 ≤ g ≤ 93` and
`66 ≤ b ≤ 170`, hence within 0..255; and when the score increases the red
channel never decreases while the green and blue channels never increase. -/
theorem C30_channels_bounded_and_monotone (score : Option ℚ) (s t : ℚ) (hst : s ≤ t) :
    (0 ≤ colorR score ∧ colorR score ≤ 239) ∧
    (62 ≤ colorG score ∧ colorG score ≤ 93) ∧
    (66 ≤ colorB score ∧ colorB score ≤ 170) ∧
    getColorForScore score = rgbString (colorR score) (colorG score) (colorB score) ∧
    colorR (some s) ≤ colorR (some t) ∧
    colorG (some t) ≤ colorG (some s) ∧
    colorB (some t) ≤ colorB (some s) := by
  obtain ⟨h0, h1⟩ := clamped_mem_unit score
  have hc := clamped_mono hst
  refine ⟨⟨?_, ?_⟩, ⟨?_, ?_⟩, ⟨?_, ?_⟩, rfl, ?_, ?_, ?_⟩
  · unfold colorR mathRound rStart rEnd
    rw [Int.le_floor]
    push_cast
    linarith
  · unfold colorR mathRound rStart rEnd
    rw [← Int.lt_add_one_iff, Int.floor_lt]
    push_cast
    linarith
  · unfold colorG mathRound gStart gEnd
    rw [Int.le_floor]
    push_cast
    linarith
  · unfold colorG mathRound gStart gEnd
    rw [← Int.lt_add_one_iff, Int.floor_lt]
    push_cast
    linarith
  · unfold colorB mathRound bStart bEnd
    rw [Int.le_floor]
    push_cast
    linarith
  · unfold colorB mathRound bStart bEnd
    rw [← Int.lt_add_one_iff, Int.floor_lt]
    push_cast
    linarith
  · unfold colorR rStart rEnd
    exact mathRound_mono (by linarith)
  · unfold colorG gStart gEnd
    exact mathRound_mono (by linarith)
  · unfold colorB bStart bEnd
    exact mathRound_mono (by linarith)

theorem C30_witness :
    (1 / 4 : ℚ) ≤ 3 / 4 ∧
    (0 ≤ colorR none ∧ colorR none ≤ 239) ∧
    colorR (some (1 / 4)) ≤ colorR (some (3 / 4)) ∧
    colorG (some (3 / 4)) ≤ colorG (some (1 / 4)) ∧
    colorB (some (3 / 4)) ≤ colorB (some (1 / 4)) :=
  ⟨by norm_num,
    (C30_channels_bounded_and_monotone none (1 / 4) (3 / 4) (by norm_num)).1,
    (C30_channels_bounded_and_monotone none (1 / 4) (3 / 4) (by norm_num)).2.2.2.2⟩

/-! ## Double arithmetic against exact arithmetic -/

/-- Reference values of `toDouble`: the doubles nearest to 0.1 and to 0.85, the
rounded sum 0.1 + 0.2 (printed 0.30000000000000004), an integer kept as it is,
a tie in the lowest subnormal step going to the even neighbour, the largest
finite double, and overflow just above it. -/
theorem toDouble_reference_values :
    toDouble (1 / 10) = some (3602879701896397 / 2 ^ 55) ∧
    toDouble (85 / 100) = some (7656119366529843 / 2 ^ 53) ∧
    toDouble (3602879701896397 / 2 ^ 55 + 3602879701896397 / 2 ^ 54)
      = some (5404319552844596 / 2 ^ 54) ∧
    toDouble 100 = some 100 ∧
    toDouble (3 / 2 ^ 1075) = some (2 / 2 ^ 1074) ∧
    toDouble (2 ^ 1024 - 2 ^ 971) = some (2 ^ 1024 - 2 ^ 971) ∧
    toDouble (2 ^ 1024 - 2 ^ 970) = none := by
  refine ⟨by decide!, by decide!, by decide!, by decide!, by decide!, by decide!, by decide!⟩

/-- C5, counterexample: the segment with `freq_per_hr = 20`, `avg_delay_min = 0`
and `load_factor = 1` satisfies the bounds of the claim and the weights
`{freq: 6, delay: 23, load: 1}` are non-negative, yet in double arithmetic
`computeSegmentScore` returns `1 + 2^(-52)` (printed 1.0000000000000002), which
is above 1; in exact arithmetic the score is 1. -/
theorem C5_counterexample_double_rounding :
    (0 ≤ seg_all_max.freq_per_hr ∧ seg_all_max.freq_per_hr ≤ 20 ∧
      0 ≤ seg_all_max.avg_delay_min ∧ 0 ≤ seg_all_max.load_factor ∧
      seg_all_max.load_factor ≤ 1) ∧
    computeSegmentScoreDouble seg_all_max (weightsOf 6 23 1) = some (1 + 1 / 2 ^ 52) ∧
    (1 : ℚ) < 1 + 1 / 2 ^ 52 ∧
    computeSegmentScore seg_all_max (weightsOf 6 23 1) = 1 := by
  refine ⟨by decide!, by decide!, by norm_num, ?_⟩
  rw [computeSegmentScore_of_ne _ (by norm_num)]
  norm_num [seg_all_max]

/-- C10, counterexample: for `52_west_1` and the weights `{freq: 0, delay: 1,
load: 4}`, scaled by the double `k = 0.01` to `{0, 0.01, 0.04}`, double
arithmetic gives `computeSegmentScore` the value
6305039478318695 / 2^53 (printed 0.7000000000000001) under the weights and
3152519739159347 / 2^52 (printed 0.7) under the scaled weights; the two
differ. -/
theorem C10_counterexample_double_rounding :
    productDouble (toDouble (1 / 100)) (some 0) = some 0 ∧
    productDouble (toDouble (1 / 100)) (some 1) = toDouble (1 / 100) ∧
    productDouble (toDouble (1 / 100)) (some 4) = toDouble (4 / 100) ∧
    computeSegmentScoreDouble seg_52_west_1 (weightsOf 0 1 4)
      = some (6305039478318695 / 2 ^ 53) ∧
    computeSegmentScoreDouble seg_52_west_1 (weightsOf 0 (1 / 100) (4 / 100))
      = some (3152519739159347 / 2 ^ 52) ∧
    computeSegmentScoreDouble seg_52_west_1 (weightsOf 0 (1 / 100) (4 / 100))
      ≠ computeSegmentScoreDouble seg_52_west_1 (weightsOf 0 1 4) := by
  refine ⟨by decide!, by decide!, by decide!, by decide!, by decide!, by decide!⟩

/-- C14, counterexample: in double arithmetic the ranking of `busSegments`
under the weights `{freq: 0, delay: 1, load: 4}` puts `52_west_1` before
`47_south_1`, and under the same weights scaled by `k = 0.01` it puts
`47_south_1` before `52_west_1`; the two rankings differ. -/
theorem C14_counterexample_double_rounding :
    rankedIds (scoredSegmentsDouble busSegments (weightsOf 0 1 4))
      = some ["23_north_1", "23_south_1", "52_east_1", "47_north_1", "52_west_1",
          "47_south_1"] ∧
    rankedIds (scoredSegmentsDouble busSegments (weightsOf 0 (1 / 100) (4 / 100)))
      = some ["23_north_1", "23_south_1", "52_east_1", "47_north_1", "47_south_1",
          "52_west_1"] ∧
    rankedIds (scoredSegmentsDouble busSegments (weightsOf 0 (1 / 100) (4 / 100)))
      ≠ rankedIds (scoredSegmentsDouble busSegments (weightsOf 0 1 4)) := by
  refine ⟨by decide!, by decide!, by decide!⟩

end Septa
